import Mathlib

/-!
Verification of the ajdb amendment engine against its specification.

This file contains a shallow embedding, in Lean 4, of the parts of the
ajdb code base (src/ajdb/structure.py, src/ajdb/amender.py,
src/ajdb/object_storage.py, src/ajdb/utils.py) that the checked claims
are about, followed by theorems settling each claim.

Modelling conventions:
* Python machine state is passed explicitly; fallible code (Python
  `assert` / exceptions) is modelled with `Except String`.
* The hun_law library is an external collaborator of this repository
  (its sources are not part of the repo).  Its `Reference` type and the
  operations the ajdb code calls on it are abstracted into the
  `RefApi` type class; data types it provides (`Date`, the document
  tree classes, the `SemanticData` variants) are modelled from the
  specification's data-model section.
* The source doubles every structure class into a bare and a
  "with metadata" (WM) variant.  Following the spec's own suggested
  collapse, the embedding uses a single node type per level with an
  optional `metadata` field; a node is "WM" when `metadata` is `some`.
* The document tree is modelled with its legally fixed depth
  (Act - Article - Paragraph - Point - Subpoint), which is the depth
  the source's ALLOWED_CHILDREN_TYPE declarations enforce.
-/

namespace Ajdb

/-! ## Dates

Modelled from the spec: hun_law's `Date` is a plain (year, month, day)
value ordered chronologically; `add_days` adds calendar days.
-/

structure Date where
  year : Nat
  month : Nat
  day : Nat
deriving DecidableEq, Repr

/-- Chronological strict order on dates (lexicographic on (y, m, d)). -/
def Date.lt (a b : Date) : Bool :=
  a.year < b.year ∨ (a.year = b.year ∧
    (a.month < b.month ∨ (a.month = b.month ∧ a.day < b.day)))

/-- Chronological non-strict order on dates. -/
def Date.le (a b : Date) : Bool := a = b ∨ Date.lt a b

/-- Number of days in a month of the proleptic Gregorian calendar. -/
def daysInMonth (year month : Nat) : Nat :=
  if month = 2 then
    if year % 4 = 0 ∧ (year % 100 ≠ 0 ∨ year % 400 = 0) then 29 else 28
  else if month = 4 ∨ month = 6 ∨ month = 9 ∨ month = 11 then 30
  else 31

/-- The day after a given date. -/
def Date.nextDay (d : Date) : Date :=
  if d.day < daysInMonth d.year d.month then ⟨d.year, d.month, d.day + 1⟩
  else if d.month < 12 then ⟨d.year, d.month + 1, 1⟩
  else ⟨d.year + 1, 1, 1⟩

/-- Modelled from the spec: `Date.add_days` ("N days after publication"). -/
def Date.add_days (d : Date) (n : Nat) : Date :=
  Nat.rec d (fun _ acc => acc.nextDay) n

/-! ## Concrete enforcement dates (src/ajdb/structure.py) -/

/-- `ConcreteEnforcementDate` of src/ajdb/structure.py: a resolved
enforcement interval. -/
structure ConcreteEnforcementDate where
  from_date : Date
  to_date : Option Date := none
deriving DecidableEq, Repr

/-- The raw date expressions of hun_law's `EnforcementDate.date`
(`EnforcementDateTypes`): an absolute date, "N days after publication",
or "day D of month M-after-publication". -/
inductive EDDate where
  | date (d : Date)
  | daysAfterPublication (days : Nat)
  | dayInMonthAfterPublication (months day : Nat)
deriving DecidableEq, Repr

/-- `ConcreteEnforcementDate._concretize_single_date`. -/
def concretizeSingleDate (date : EDDate) (publication_date : Date) : Date :=
  match date with
  | .date d => d
  | .daysAfterPublication days => publication_date.add_days days
  | .dayInMonthAfterPublication months day =>
      let month := publication_date.month + months
      if month > 12 then ⟨publication_date.year + 1, month - 12, day⟩
      else ⟨publication_date.year, month, day⟩

/-- `ConcreteEnforcementDate.is_in_force_at_date` of
src/ajdb/structure.py, line for line: the date is out of force when it
is before `from_date`, or when `to_date` is present and the date is
strictly after it. -/
def ConcreteEnforcementDate.is_in_force_at_date
    (self : ConcreteEnforcementDate) (date : Date) : Bool :=
  if Date.lt date self.from_date then false
  else match self.to_date with
    | some to_date => if Date.lt to_date date then false else true
    | none => true

/-! ## The hun_law reference interface

The `Reference` type, its operations, and the identifier order are
provided by the external hun_law library, which the repository consumes
through a narrow interface.  Modelled from the spec: a `Reference` is a
hierarchical, partially specified locator supporting containment,
relative resolution and range decomposition.  The embedding abstracts
it as a type class so every theorem holds for any implementation of
that interface.
-/

/-- The structural type of a `Reference`'s most specific populated
level, as returned by hun_law's `last_component_with_type`. -/
inductive RefKind where
  | article
  | paragraph
  | point
  | subpoint
deriving DecidableEq, Repr

/-- Operations the ajdb code calls on hun_law references and
identifiers.  `contains`, `relativeTo`, `firstInRange`/`lastInRange`
and the `at.../...Rel` constructors are the spec's containment test,
relative resolution, range decomposition and locator construction. -/
class RefApi (Ref : Type) where
  contains : Ref → Ref → Bool
  setAct : Ref → String → Ref
  refAct : Ref → Option String
  mkActRef : String → Ref
  mkArticleRef : String → String → Ref
  atArticle : Ref → String → Ref
  atParagraph : Ref → Option String → Ref
  atPoint : Ref → Option String → Ref
  atSubpoint : Ref → Option String → Ref
  kind : Ref → Option RefKind
  parent : Ref → Ref
  le : Ref → Ref → Bool
  lt : Ref → Ref → Bool
  relativeTo : Ref → Ref → Ref
  firstInRange : Ref → Ref
  lastInRange : Ref → Ref
  articleRel : String → Ref
  paragraphRel : Option String → Ref
  pointRel : Option String → Ref
  subpointRel : Option String → Ref
  articleScope : String → Ref → Ref
  idLess : String → String → Bool

/-- hun_law's `SubtitleArticleComboType`: the before/after-an-article
anchor combinators of a "special" structural reference. -/
inductive SubtitleArticleComboType where
  | before_with_article
  | before_without_article
  | after
deriving DecidableEq, Repr

/-- hun_law's `StructuralReference`, restricted to the fields the
claimed code paths read: the target act, an optional book scope, and
the optional "special" anchor `(combo, article_id)`.  The named
structural-element levels are not modelled because no claim exercises
`get_cut_points_for_structural_reference`. -/
structure StructuralRef where
  act : Option String := none
  book : Option String := none
  special : Option (SubtitleArticleComboType × String) := none
deriving DecidableEq, Repr

/-- A modification position: either an ordinary `Reference` or a
`StructuralReference`. -/
inductive AnyRef (Ref : Type) where
  | ref (r : Ref)
  | structural (s : StructuralRef)
deriving DecidableEq, Repr

/-! ## Semantic directives

hun_law's `SemanticData` subclasses, restricted to the fields the ajdb
code reads. -/

inductive SemanticData (Ref : Type) where
  | enforcementDate (position : Option Ref) (date : EDDate)
      (repeal_date : Option Date)
  | textAmendment (position : Ref) (original_text replacement_text : String)
  | repeal (position : AnyRef Ref) (text : Option String)
  | articleTitleAmendment (position : Ref)
      (original_text replacement_text : String)
  | blockAmendment (position : AnyRef Ref) (pure_insertion : Bool)
deriving DecidableEq, Repr

/-! ## The document tree (src/ajdb/structure.py)

The "WM" (with-metadata) class family of the source doubles every SAE
class; following the collapse the spec itself proposes, each node here
carries `metadata : Option _`, and a node is in the working (WM)
representation exactly when the field is `some`.  The tree depth is
the one fixed by the source's `ALLOWED_CHILDREN_TYPE` declarations:
Act - Article - Paragraph - Point - Subpoint, with `QuotedBlock` /
`BlockAmendmentContainer` as non-SAE paragraph content. -/

/-- `LastModified` of src/ajdb/structure.py. -/
structure LastModified (Ref : Type) where
  date : Date
  modified_by : Ref
deriving DecidableEq, Repr

/-- `SaeMetadata` of src/ajdb/structure.py. -/
structure SaeMetadata (Ref : Type) where
  enforcement_date : Option ConcreteEnforcementDate := none
  last_modified : Option (LastModified Ref) := none
deriving DecidableEq, Repr

/-- The fields shared by every `SubArticleElement` subclass of
hun_law, plus the optional working metadata. -/
structure SaeData (Ref : Type) where
  identifier : Option String := none
  text : Option String := none
  intro : Option String := none
  wrap_up : Option String := none
  semantic_data : Option (List (SemanticData Ref)) := none
  outgoing_references : Option (List Ref) := none
  act_id_abbreviations : Option (List String) := none
  metadata : Option (SaeMetadata Ref) := none
deriving DecidableEq, Repr

/-- The concrete subpoint classes (`AlphabeticSubpoint`,
`NumericSubpoint`). -/
inductive SubpointKind where
  | alphabetic
  | numeric
deriving DecidableEq, Repr

/-- The concrete point classes (`AlphabeticPoint`, `NumericPoint`). -/
inductive PointKind where
  | alphabetic
  | numeric
deriving DecidableEq, Repr

/-- A subpoint node (leaf SAE). -/
structure Subpoint (Ref : Type) where
  kind : SubpointKind
  data : SaeData Ref
deriving DecidableEq, Repr

/-- A point node; its SAE children are subpoints. -/
structure Point (Ref : Type) where
  kind : PointKind
  data : SaeData Ref
  children : Option (List (Subpoint Ref)) := none
deriving DecidableEq, Repr

/-- The structural heading classes (`Book`, `Part`, `Title`,
`Chapter`, `Subtitle`). -/
inductive StructuralKind where
  | book
  | part
  | titleElement
  | chapter
  | subtitle
deriving DecidableEq, Repr

/-- A structural heading child of an act. -/
structure StructuralElement where
  kind : StructuralKind
  identifier : String
  title : String
deriving DecidableEq, Repr

/-- A paragraph of block-amendment content (content of a
`BlockAmendmentContainer`): parsed raw content, whose children can
only be points.  Nested block-amendment containers inside
block-amendment content are not modelled. -/
structure BParagraph (Ref : Type) where
  data : SaeData Ref
  children : Option (List (Point Ref)) := none
deriving DecidableEq, Repr

/-- An article of block-amendment content. -/
structure BArticle (Ref : Type) where
  identifier : String
  title : Option String := none
  children : List (BParagraph Ref)
deriving DecidableEq, Repr

/-- One child of a `BlockAmendmentContainer`. -/
inductive BlockChild (Ref : Type) where
  | article (a : BArticle Ref)
  | paragraph (p : BParagraph Ref)
  | point (p : Point Ref)
  | subpoint (s : Subpoint Ref)
  | structural (se : StructuralElement)
deriving DecidableEq, Repr

/-- The possible `children` payloads of a full paragraph: points, a
run of quoted blocks, or a single `BlockAmendmentContainer` (the
source asserts the container is an only child; here it is the whole
payload). -/
inductive ParagraphChildren (Ref : Type) where
  | points (ps : List (Point Ref))
  | quotedBlocks (blocks : List (List String))
  | blockAmendmentContainer (children : List (BlockChild Ref))
deriving DecidableEq, Repr

/-- A paragraph node. -/
structure Paragraph (Ref : Type) where
  data : SaeData Ref
  children : Option (ParagraphChildren Ref) := none
deriving DecidableEq, Repr

/-- An article (`Article` / `ArticleWM`; an `ArticleWMProxy` is
modelled as its dereferenced article). -/
structure Article (Ref : Type) where
  identifier : String
  title : Option String := none
  children : List (Paragraph Ref)
deriving DecidableEq, Repr

/-- A child of an act: a structural heading or an article. -/
inductive ActChild (Ref : Type) where
  | structural (se : StructuralElement)
  | article (a : Article Ref)
deriving DecidableEq, Repr

/-- `ActWM` of src/ajdb/structure.py (the derived `articles` /
`articles_map` caches are recomputed, not stored). -/
structure ActWM (Ref : Type) where
  identifier : String
  publication_date : Date
  subject : String
  preamble : String
  children : List (ActChild Ref)
  interesting_dates : List Date
deriving DecidableEq, Repr

/-- A uniform view of one SAE node, as passed to the Python modifier
callbacks (which receive any `SubArticleElement`). -/
inductive SaeNode (Ref : Type) where
  | paragraph (p : Paragraph Ref)
  | point (pt : Point Ref)
  | subpoint (sp : Subpoint Ref)
deriving DecidableEq, Repr

/-- The `SaeData` record of a uniform SAE node. -/
def SaeNode.data {Ref : Type} : SaeNode Ref → SaeData Ref
  | .paragraph p => p.data
  | .point pt => pt.data
  | .subpoint sp => sp.data

/-! ## String and list utilities -/

/-- Whether `p` is an initial segment of `l`. -/
def isPre (p l : List Char) : Bool :=
  match p, l with
  | [], _ => true
  | _ :: _, [] => false
  | a :: ps, b :: ls => a = b && isPre ps ls

/-- Python's `str.replace` on character lists: replace every
non-overlapping occurrence of `orig`, scanning left to right.  The
scan consumes at least one character per step, so the fuel is the text
length (structural recursion on the fuel keeps the definition
kernel-computable). -/
def replaceAux (orig repl : List Char) : Nat → List Char → List Char
  | _, [] => []
  | 0, l => l
  | fuel + 1, c :: rest =>
    if orig ≠ [] ∧ isPre orig (c :: rest) = true then
      repl ++ replaceAux orig repl fuel ((c :: rest).drop orig.length)
    else
      c :: replaceAux orig repl fuel rest

/-- Python's `str.replace`, including the empty-pattern case (an empty
`orig` splices `repl` around every character). -/
def pyReplace (orig repl s : String) : String :=
  if orig.data = [] then ⟨repl.data ++ s.data.flatMap (fun c => c :: repl.data)⟩
  else ⟨replaceAux orig.data repl.data s.data.length s.data⟩

/-- Python's substring test (`orig in s`) on character lists. -/
def occursIn (orig : List Char) : List Char → Bool
  | [] => isPre orig []
  | c :: rest => isPre orig (c :: rest) || occursIn orig rest

/-- Python's substring test on strings. -/
def occursInStr (orig s : String) : Bool := occursIn orig.data s.data

/-- `first_matching_index` of src/ajdb/utils.py with `start=0`: index
of the first element satisfying `p`, or the length of the list. -/
def first_matching_index (p : α → Bool) : List α → Nat
  | [] => 0
  | x :: xs => if p x then 0 else first_matching_index p xs + 1

/-- `first_matching_index` with an explicit `start`: scans
`range(start, len(data))`. -/
def first_matching_index_from (p : α → Bool) (l : List α) (start : Nat) : Nat :=
  start + first_matching_index p (l.drop start)

/-! ## Recursive SAE mapping

hun_law's `SubArticleElement.map_recursive` / `Article.map_recursive`
are external collaborator code.  Modelled from the spec: the modifier
is applied to every SAE whose reference is covered by
`filter_for_reference` (all SAEs when it is `None`), recursing into
SAE children but not into `QuotedBlock` / `BlockAmendmentContainer`
content, before or after the node itself according to
`children_first`; a node's reference extends the parent reference with
the node's identifier at the node's own level. -/

/-- The type of the Python modifier callbacks: reference and node in,
node out, plus the `applied`-style flag the callback would set on its
applier, with Python exceptions as `Except`. -/
abbrev Modifier (Ref : Type) := Ref → SaeNode Ref → Except String (SaeNode Ref × Bool)

/-- `filter_for_reference is None or filter_for_reference.contains(reference)`. -/
def coveredBy {Ref : Type} [RefApi Ref] (filt : Option Ref) (ref : Ref) : Bool :=
  match filt with
  | none => true
  | some f => RefApi.contains f ref

/-- Rebuild a uniform SAE node with new shared data, keeping its class
and children. -/
def SaeNode.withData {Ref : Type} : SaeNode Ref → SaeData Ref → SaeNode Ref
  | .paragraph p, d => .paragraph { p with data := d }
  | .point pt, d => .point { pt with data := d }
  | .subpoint sp, d => .subpoint { sp with data := d }

/-- A Python modifier returns a node of the same class; anything else
would corrupt the tree (modelled as an error). -/
def expectSubpoint {Ref : Type} : SaeNode Ref × Bool → Except String (Subpoint Ref × Bool)
  | (.subpoint sp, b) => pure (sp, b)
  | _ => throw "modifier changed the node class"

/-- See `expectSubpoint`. -/
def expectPoint {Ref : Type} : SaeNode Ref × Bool → Except String (Point Ref × Bool)
  | (.point pt, b) => pure (pt, b)
  | _ => throw "modifier changed the node class"

/-- See `expectSubpoint`. -/
def expectParagraph {Ref : Type} : SaeNode Ref × Bool → Except String (Paragraph Ref × Bool)
  | (.paragraph p, b) => pure (p, b)
  | _ => throw "modifier changed the node class"

/-- Map a modifier over one subpoint (leaf case of `map_recursive`). -/
def mapSubpointM {Ref : Type} [RefApi Ref] (filt : Option Ref) (f : Modifier Ref)
    (parentRef : Ref) (sp : Subpoint Ref) : Except String (Subpoint Ref × Bool) :=
  let ref := RefApi.atSubpoint parentRef sp.data.identifier
  if coveredBy filt ref then do
    expectSubpoint (← f ref (.subpoint sp))
  else pure (sp, false)

/-- Map a modifier over a list of subpoints, collecting the flags. -/
def mapSubpointsM {Ref : Type} [RefApi Ref] (filt : Option Ref) (f : Modifier Ref)
    (parentRef : Ref) (sps : List (Subpoint Ref)) :
    Except String (List (Subpoint Ref) × Bool) := do
  let rs ← sps.mapM (mapSubpointM filt f parentRef)
  pure (rs.map Prod.fst, rs.any Prod.snd)

/-- Map a modifier over one point and (depending on `children_first`,
before or after the node itself) its subpoints. -/
def mapPointM {Ref : Type} [RefApi Ref] (filt : Option Ref) (cf : Bool) (f : Modifier Ref)
    (parentRef : Ref) (pt : Point Ref) : Except String (Point Ref × Bool) :=
  let ref := RefApi.atPoint parentRef pt.data.identifier
  let selfStep : Point Ref → Except String (Point Ref × Bool) := fun p =>
    if coveredBy filt ref then do expectPoint (← f ref (.point p))
    else pure (p, false)
  let childStep : Point Ref → Except String (Point Ref × Bool) := fun p =>
    match p.children with
    | none => pure (p, false)
    | some sps => do
      let (l, b) ← mapSubpointsM filt f ref sps
      pure ({ p with children := some l }, b)
  if cf then do
    let (p1, b1) ← childStep pt
    let (p2, b2) ← selfStep p1
    pure (p2, b1 || b2)
  else do
    let (p1, b1) ← selfStep pt
    let (p2, b2) ← childStep p1
    pure (p2, b1 || b2)

/-- Map a modifier over one paragraph and its point children; quoted
blocks and block-amendment containers are not SAE children and are not
descended into. -/
def mapParagraphM {Ref : Type} [RefApi Ref] (filt : Option Ref) (cf : Bool) (f : Modifier Ref)
    (parentRef : Ref) (pg : Paragraph Ref) : Except String (Paragraph Ref × Bool) :=
  let ref := RefApi.atParagraph parentRef pg.data.identifier
  let selfStep : Paragraph Ref → Except String (Paragraph Ref × Bool) := fun p =>
    if coveredBy filt ref then do expectParagraph (← f ref (.paragraph p))
    else pure (p, false)
  let childStep : Paragraph Ref → Except String (Paragraph Ref × Bool) := fun p =>
    match p.children with
    | some (.points ps) => do
      let rs ← ps.mapM (mapPointM filt cf f ref)
      pure ({ p with children := some (.points (rs.map Prod.fst)) }, rs.any Prod.snd)
    | _ => pure (p, false)
  if cf then do
    let (p1, b1) ← childStep pg
    let (p2, b2) ← selfStep p1
    pure (p2, b1 || b2)
  else do
    let (p1, b1) ← selfStep pg
    let (p2, b2) ← childStep p1
    pure (p2, b1 || b2)

/-- hun_law's `Article.map_recursive`: recurse into the paragraphs,
with the article's reference extending the parent reference. -/
def mapArticleSaesM {Ref : Type} [RefApi Ref] (filt : Option Ref) (cf : Bool) (f : Modifier Ref)
    (parentRef : Ref) (a : Article Ref) : Except String (Article Ref × Bool) := do
  let ref := RefApi.atArticle parentRef a.identifier
  let rs ← a.children.mapM (mapParagraphM filt cf f ref)
  pure ({ a with children := rs.map Prod.fst }, rs.any Prod.snd)

/-- `ArticleWM.map_recursive_wm` of src/ajdb/structure.py: every
visited SAE is asserted to be in the working (metadata-bearing)
representation before the modifier runs. -/
def wmAssert {Ref : Type} (f : Modifier Ref) : Modifier Ref := fun ref n =>
  if n.data.metadata.isSome then f ref n
  else throw "asserting_modifier: SAE without metadata"

/-- `ArticleWM.map_recursive_wm`. -/
def Article.map_recursive_wm {Ref : Type} [RefApi Ref] (a : Article Ref) (parentRef : Ref)
    (f : Modifier Ref) (filt : Option Ref) (cf : Bool) :
    Except String (Article Ref × Bool) :=
  mapArticleSaesM filt cf (wmAssert f) parentRef a

/-- One child step of `ActWM.map_articles`: the accumulator carries
the reversed new children, the `children_changed` flag and the
combined applied flag. -/
def mapArticlesStep {Ref : Type} [RefApi Ref] [DecidableEq Ref] (act_identifier : String)
    (modifier : Ref → Article Ref → Except String (Article Ref × Bool))
    (filt : Option Ref) (acc : List (ActChild Ref) × Bool × Bool) (child : ActChild Ref) :
    Except String (List (ActChild Ref) × Bool × Bool) :=
  match child with
  | ActChild.article a =>
    let article_reference := RefApi.mkArticleRef act_identifier a.identifier
    if coveredBy filt article_reference then do
      let (a2, b) ← modifier article_reference a
      pure (ActChild.article a2 :: acc.1,
        (acc.2.1 || decide (a2 ≠ a), acc.2.2 || b))
    else pure (child :: acc.1, acc.2)
  | _ => pure (child :: acc.1, acc.2)

/-- `ActWM.map_articles` of src/ajdb/structure.py: apply the modifier
to every article covered by the filter; if no modifier call returned a
new value (`new_child is not child_to_modify`, modelled by value
inequality), the original act value is returned unchanged. -/
def ActWM.map_articles {Ref : Type} [RefApi Ref] [DecidableEq Ref] (act : ActWM Ref)
    (modifier : Ref → Article Ref → Except String (Article Ref × Bool))
    (filt : Option Ref) : Except String (ActWM Ref × Bool) := do
  let (newRev, changed, flag) ←
    act.children.foldlM (mapArticlesStep act.identifier modifier filt) ([], false, false)
  if changed then pure ({ act with children := newRev.reverse }, flag)
  else pure (act, flag)

/-- `ActWM.map_saes` of src/ajdb/structure.py: `map_articles` (without
a filter) of `map_recursive_wm` rooted at the act's own reference. -/
def ActWM.map_saes {Ref : Type} [RefApi Ref] [DecidableEq Ref] (act : ActWM Ref)
    (f : Modifier Ref) (filt : Option Ref) (cf : Bool) :
    Except String (ActWM Ref × Bool) :=
  act.map_articles
    (fun _ref a => a.map_recursive_wm (RefApi.mkActRef act.identifier) f filt cf)
    none

/-! ## SAE iteration (src/ajdb/utils.py) -/

/-- `iterate_all_saes_of_sae` restricted to a point: the point, then
its subpoints. -/
def iterateSaesOfPoint {Ref : Type} (pt : Point Ref) : List (SaeNode Ref) :=
  SaeNode.point pt :: (pt.children.getD []).map SaeNode.subpoint

/-- `iterate_all_saes_of_sae` on a paragraph: the paragraph, then its
point subtree; quoted blocks and block-amendment containers are
excluded, as in the source. -/
def iterateSaesOfParagraph {Ref : Type} (pg : Paragraph Ref) : List (SaeNode Ref) :=
  SaeNode.paragraph pg ::
    (match pg.children with
     | some (.points ps) => ps.flatMap iterateSaesOfPoint
     | _ => [])

/-- `iterate_all_saes_of_act` of src/ajdb/utils.py. -/
def iterate_all_saes_of_act {Ref : Type} (act : ActWM Ref) : List (SaeNode Ref) :=
  act.children.flatMap fun c =>
    match c with
    | .article a => a.children.flatMap iterateSaesOfParagraph
    | _ => []

/-- The SAEs of an act together with their references, in `map_saes`
traversal order (node before children). -/
def walkPoint {Ref : Type} [RefApi Ref] (parentRef : Ref) (pt : Point Ref) :
    List (Ref × SaeNode Ref) :=
  let ref := RefApi.atPoint parentRef pt.data.identifier
  (ref, SaeNode.point pt) ::
    (pt.children.getD []).map
      (fun sp => (RefApi.atSubpoint ref sp.data.identifier, SaeNode.subpoint sp))

/-- See `walkPoint`. -/
def walkParagraph {Ref : Type} [RefApi Ref] (parentRef : Ref) (pg : Paragraph Ref) :
    List (Ref × SaeNode Ref) :=
  let ref := RefApi.atParagraph parentRef pg.data.identifier
  (ref, SaeNode.paragraph pg) ::
    (match pg.children with
     | some (.points ps) => ps.flatMap (walkPoint ref)
     | _ => [])

/-- See `walkPoint`. -/
def walkAct {Ref : Type} [RefApi Ref] (act : ActWM Ref) : List (Ref × SaeNode Ref) :=
  act.children.flatMap fun c =>
    match c with
    | .article a =>
      a.children.flatMap
        (walkParagraph (RefApi.atArticle (RefApi.mkActRef act.identifier) a.identifier))
    | _ => []

/-! ## Enforcement date resolution (src/ajdb/amender.py) -/

/-- `ConcreteEnforcementDate.from_enforcement_date`. -/
def ConcreteEnforcementDate.from_enforcement_date (date : EDDate)
    (repeal_date : Option Date) (publication_date : Date) : ConcreteEnforcementDate :=
  { from_date := concretizeSingleDate date publication_date, to_date := repeal_date }

/-- `EnforcementDateSet` of src/ajdb/amender.py. -/
structure EnforcementDateSet (Ref : Type) where
  default : ConcreteEnforcementDate
  specials : List (Ref × ConcreteEnforcementDate)
deriving DecidableEq, Repr

/-- One step of `EnforcementDateSet.from_act`'s inner loop over a
SAE's semantic data elements. -/
def edCollectStep {Ref : Type} [RefApi Ref] (act_identifier : String)
    (publication_date : Date)
    (st : Option ConcreteEnforcementDate × List (Ref × ConcreteEnforcementDate))
    (el : SemanticData Ref) :
    Except String (Option ConcreteEnforcementDate × List (Ref × ConcreteEnforcementDate)) :=
  match el with
  | .enforcementDate pos date repeal_date =>
    let concrete_ed :=
      ConcreteEnforcementDate.from_enforcement_date date repeal_date publication_date
    match pos with
    | none =>
      match st.1 with
      | some _ => throw "assert default is None"
      | none => pure (some concrete_ed, st.2)
    | some p => pure (st.1, st.2 ++ [(RefApi.setAct p act_identifier, concrete_ed)])
  | _ => pure st

/-- One step of `EnforcementDateSet.from_act`'s outer loop over the
SAEs of the act (`assert sae.semantic_data is not None`, then the
inner loop). -/
def edCollectSae {Ref : Type} [RefApi Ref] (act_identifier : String)
    (publication_date : Date)
    (st : Option ConcreteEnforcementDate × List (Ref × ConcreteEnforcementDate))
    (sae : SaeNode Ref) :
    Except String (Option ConcreteEnforcementDate × List (Ref × ConcreteEnforcementDate)) :=
  match sae.data.semantic_data with
  | none => throw "assert sae.semantic_data is not None"
  | some sd => sd.foldlM (edCollectStep act_identifier publication_date) st

/-- `EnforcementDateSet.from_act`: collect the default and targeted
directives (fatal if a second default appears), then assert that a
default exists, that no special starts before it, and that no special
carries a `to_date`. -/
def EnforcementDateSet.from_act {Ref : Type} [RefApi Ref] (act : ActWM Ref) :
    Except String (EnforcementDateSet Ref) := do
  let (dflt, specials) ←
    (iterate_all_saes_of_act act).foldlM
      (edCollectSae act.identifier act.publication_date) (none, [])
  match dflt with
  | none => throw "assert default is not None"
  | some default =>
    if !(specials.all fun sc => Date.le default.from_date sc.2.from_date) then
      throw "assert default.from_date <= special.from_date"
    else if !(specials.all fun sc => sc.2.to_date = none) then
      throw "assert special.to_date is None"
    else pure { default := default, specials := specials }

/-- `EnforcementDateSet.sae_modifier`: walk the specials in
declaration order, the last whose reference contains the node's
reference wins, defaulting to the default interval; the node's
metadata is updated with the winning interval. -/
def EnforcementDateSet.sae_modifier {Ref : Type} [RefApi Ref]
    (self : EnforcementDateSet Ref) (reference : Ref) (sae : SaeNode Ref) :
    Except String (SaeNode Ref) :=
  let applicable_ced :=
    self.specials.foldl
      (fun acc rc => if RefApi.contains rc.1 reference then rc.2 else acc)
      self.default
  match sae.data.metadata with
  | none => throw "sae.metadata missing"
  | some md =>
    pure (sae.withData
      { sae.data with metadata := some { md with enforcement_date := some applicable_ced } })

/-- Whether a semantic directive is a default (untargeted) enforcement
directive. -/
def isDefaultEd {Ref : Type} : SemanticData Ref → Bool
  | .enforcementDate none _ _ => true
  | _ => false

/-- The number of default (untargeted) enforcement directives an act
carries, across all of its SAEs. -/
def countDefaultEds {Ref : Type} (act : ActWM Ref) : Nat :=
  ((iterate_all_saes_of_act act).map fun sae =>
    (sae.data.semantic_data.getD []).countP isDefaultEd).sum

/-! ## Modification appliers (src/ajdb/amender.py) -/

/-- `NOT_ENFORCED_TEXT` of src/ajdb/amender.py. -/
def NOT_ENFORCED_TEXT : String := " "

/-- Re-built block-amendment content, after metadata stamping: the
possible element types of `BlockAmendmentApplier.new_children`. -/
inductive NewChild (Ref : Type) where
  | structural (se : StructuralElement)
  | article (a : Article Ref)
  | paragraph (p : Paragraph Ref)
  | point (p : Point Ref)
  | subpoint (s : Subpoint Ref)
deriving DecidableEq, Repr

/-- The applier objects of src/ajdb/amender.py, with the fields their
attrs constructors compute (`position`, `original_text`,
`replacement_text`, `new_children`, ...) stored alongside the raw
modification, source SAE and date. -/
inductive Applier (Ref : Type) where
  | textReplacement (modification : SemanticData Ref) (source_sae : SaeNode Ref)
      (current_date : Date) (position : Ref) (original_text replacement_text : String)
  | articleTitle (modification : SemanticData Ref) (source_sae : SaeNode Ref)
      (current_date : Date)
  | repealApplier (modification : SemanticData Ref) (source_sae : SaeNode Ref)
      (current_date : Date)
  | blockAmendment (modification : SemanticData Ref) (source_sae : SaeNode Ref)
      (current_date : Date) (new_children : List (NewChild Ref))
      (position : AnyRef Ref) (pure_insertion : Bool)
deriving DecidableEq, Repr

/-- The `modification` attribute of an applier. -/
def Applier.modification {Ref : Type} : Applier Ref → SemanticData Ref
  | .textReplacement m _ _ _ _ _ => m
  | .articleTitle m _ _ => m
  | .repealApplier m _ _ => m
  | .blockAmendment m _ _ _ _ _ => m

/-- `ModificationApplier.priority` and its single override
`TextReplacementApplier.priority`: the length of the original text for
a text replacement, `0` for every other applier. -/
def Applier.priority {Ref : Type} : Applier Ref → Nat
  | .textReplacement _ _ _ _ original_text _ => original_text.length
  | _ => 0

/-- `TextReplacementApplier.can_apply`. -/
def canApplyTextReplacement {Ref : Type} : SemanticData Ref → Bool
  | .textAmendment _ _ _ => true
  | .repeal _ (some _) => true
  | _ => false

/-- `ArticleTitleAmendmentApplier.can_apply`. -/
def canApplyArticleTitle {Ref : Type} : SemanticData Ref → Bool
  | .articleTitleAmendment _ _ _ => true
  | _ => false

/-- `RepealApplier.can_apply`. -/
def canApplyRepeal {Ref : Type} : SemanticData Ref → Bool
  | .repeal _ none => true
  | _ => false

/-- `BlockAmendmentApplier.can_apply`. -/
def canApplyBlockAmendment {Ref : Type} : SemanticData Ref → Bool
  | .blockAmendment _ _ => true
  | _ => false

/-- Construction of a `TextReplacementApplier`: the attrs defaults for
`position` (must be an ordinary `Reference`), `original_text` (the
amendment's original text, or a Repeal's non-`None` `text`) and
`replacement_text` (the replacement, or the not-enforced marker for a
Repeal). -/
def mkTextReplacementApplier {Ref : Type} (m : SemanticData Ref) (source_sae : SaeNode Ref)
    (current_date : Date) : Except String (Applier Ref) :=
  match m with
  | .textAmendment position original_text replacement_text =>
    pure (.textReplacement m source_sae current_date position original_text replacement_text)
  | .repeal (.ref position) (some t) =>
    pure (.textReplacement m source_sae current_date position t NOT_ENFORCED_TEXT)
  | .repeal (.structural _) (some _) =>
    throw "assert isinstance(self.modification.position, Reference)"
  | .repeal _ none => throw "assert self.modification.text is not None"
  | _ => throw "TypeError: unknown SemanticData type in TextReplacementApplier"

/-- `BlockAmendmentApplier.sae_metadata_adder`'s fresh metadata: a new
enforcement interval starting at the current date. -/
def stampMetadata {Ref : Type} (current_date : Date) : SaeMetadata Ref :=
  { enforcement_date := some { from_date := current_date, to_date := none },
    last_modified := none }

/-- `sae_metadata_adder` on the shared fields: a bare SAE gets the
fresh metadata; an SAE that already carries metadata trips the
`assert not isinstance(sae, SAE_WM_CLASSES)`. -/
def stampData {Ref : Type} (current_date : Date) (sd : SaeData Ref) :
    Except String (SaeData Ref) :=
  match sd.metadata with
  | some _ => throw "assert not isinstance(sae, SAE_WM_CLASSES)"
  | none => pure { sd with metadata := some (stampMetadata current_date) }

/-- Metadata stamping of a bare subpoint. -/
def stampSubpoint {Ref : Type} (current_date : Date) (sp : Subpoint Ref) :
    Except String (Subpoint Ref) := do
  pure { sp with data := ← stampData current_date sp.data }

/-- Metadata stamping of a bare point subtree (children first). -/
def stampPoint {Ref : Type} (current_date : Date) (pt : Point Ref) :
    Except String (Point Ref) := do
  let children ← match pt.children with
    | none => pure none
    | some sps => some <$> sps.mapM (stampSubpoint current_date)
  pure { pt with data := ← stampData current_date pt.data, children := children }

/-- Metadata stamping of a bare block-content paragraph subtree. -/
def stampBParagraph {Ref : Type} (current_date : Date) (p : BParagraph Ref) :
    Except String (BParagraph Ref) := do
  let children ← match p.children with
    | none => pure none
    | some ps => some <$> ps.mapM (stampPoint current_date)
  pure { p with data := ← stampData current_date p.data, children := children }

/-- A block-content paragraph as a full paragraph (its children can
only be points). -/
def bparagraphToParagraph {Ref : Type} (p : BParagraph Ref) : Paragraph Ref :=
  { data := p.data, children := p.children.map ParagraphChildren.points }

/-- `evolve_into(child, ArticleWM)`: the `ArticleWM` constructor
asserts that every paragraph carries metadata. -/
def toArticleWM {Ref : Type} (a : BArticle Ref) : Except String (Article Ref) :=
  let ps := a.children.map bparagraphToParagraph
  if ps.all fun p => p.data.metadata.isSome then
    pure { identifier := a.identifier, title := a.title, children := ps }
  else throw "All paragraphs shall have metadata"

/-- `BlockAmendmentApplier._new_children_default` on one container
child: WM-able SAEs and articles are recursively stamped with the
fresh metadata, articles are then evolved into `ArticleWM`, and
anything else is kept as is. -/
def stampBlockChild {Ref : Type} (current_date : Date) :
    BlockChild Ref → Except String (NewChild Ref)
  | .article a => do
    let ps ← a.children.mapM (stampBParagraph current_date)
    NewChild.article <$> toArticleWM { a with children := ps }
  | .paragraph p => NewChild.paragraph <$> bparagraphToParagraph <$> stampBParagraph current_date p
  | .point p => NewChild.point <$> stampPoint current_date p
  | .subpoint s => NewChild.subpoint <$> stampSubpoint current_date s
  | .structural se => pure (NewChild.structural se)

/-- Construction of a `BlockAmendmentApplier`: the source SAE's only
child must be a `BlockAmendmentContainer`, whose children become the
stamped `new_children`. -/
def mkBlockAmendmentApplier {Ref : Type} (m : SemanticData Ref) (source_sae : SaeNode Ref)
    (current_date : Date) : Except String (Applier Ref) :=
  match m with
  | .blockAmendment position pure_insertion =>
    match source_sae with
    | .paragraph p =>
      match p.children with
      | some (.blockAmendmentContainer bs) => do
        let ncs ← bs.mapM (stampBlockChild current_date)
        pure (.blockAmendment m source_sae current_date ncs position pure_insertion)
      | _ => throw "assert isinstance(children[0], BlockAmendmentContainer)"
    | _ => throw "assert isinstance(children[0], BlockAmendmentContainer)"
  | _ => throw "assert isinstance(self.modification, BlockAmendment)"

/-- `TextReplacementApplier.text_replacer`: replace inside
`text`/`intro`/`wrap_up`; when nothing changed, the SAE value itself is
returned and `applied` is untouched, otherwise the semantic
annotation fields are invalidated and `applied` is set. -/
def text_replacer {Ref : Type} (original_text replacement_text : String) : Modifier Ref :=
  fun _reference sae =>
    let d := sae.data
    let new_text := d.text.map (pyReplace original_text replacement_text)
    let new_intro := d.intro.map (pyReplace original_text replacement_text)
    let new_wrap_up := d.wrap_up.map (pyReplace original_text replacement_text)
    if d.text = new_text ∧ d.intro = new_intro ∧ d.wrap_up = new_wrap_up then
      pure (sae, false)
    else
      pure (sae.withData
        { d with text := new_text, intro := new_intro, wrap_up := new_wrap_up,
                 semantic_data := none, outgoing_references := none,
                 act_id_abbreviations := none }, true)

/-- `RepealApplier.create_new_metadata`: keep the resolved
`from_date`, close the interval at the current date. -/
def create_new_metadata {Ref : Type} (current_date : Date) (d : SaeData Ref) :
    Except String (SaeMetadata Ref) :=
  match d.metadata with
  | none => throw "sae.metadata missing"
  | some md =>
    match md.enforcement_date with
    | none => throw "assert sae.metadata.enforcement_date is not None"
    | some ed =>
      pure { enforcement_date := some { from_date := ed.from_date, to_date := some current_date },
             last_modified := none }

/-- `RepealApplier.sae_repealer`: rebuild the SAE class with the same
identifier, the not-enforced text, empty annotation tuples and closed
metadata; all other constructor fields (children, intro, wrap_up) take
their `None` defaults. -/
def sae_repealer {Ref : Type} (current_date : Date) : Modifier Ref := fun _reference sae => do
  let md ← create_new_metadata current_date sae.data
  let newData : SaeData Ref :=
    { identifier := sae.data.identifier, text := some NOT_ENFORCED_TEXT,
      intro := none, wrap_up := none, semantic_data := some [],
      outgoing_references := some [], act_id_abbreviations := some [],
      metadata := some md }
  match sae with
  | .paragraph _ => pure (.paragraph { data := newData, children := none }, true)
  | .point pt => pure (.point { kind := pt.kind, data := newData, children := none }, true)
  | .subpoint sp => pure (.subpoint { kind := sp.kind, data := newData }, true)

/-- `RepealApplier.article_repealer`: replace the article body with a
single not-enforced paragraph whose metadata closes the first
paragraph's interval. -/
def article_repealer {Ref : Type} (current_date : Date) :
    Ref → Article Ref → Except String (Article Ref × Bool) := fun _reference article => do
  match article.children with
  | [] => throw "IndexError: article.children[0]"
  | first_paragraph :: _ =>
    if first_paragraph.data.metadata.isSome then do
      let md ← create_new_metadata current_date first_paragraph.data
      let pdata : SaeData Ref :=
        { identifier := none, text := some NOT_ENFORCED_TEXT, intro := none,
          wrap_up := none, semantic_data := some [], outgoing_references := some [],
          act_id_abbreviations := some [], metadata := some md }
      let p : Paragraph Ref := { data := pdata, children := none }
      pure ({ identifier := article.identifier, title := none, children := [p] }, true)
    else throw "assert isinstance(first_paragraph, ParagraphWM)"

/-- `RepealApplier.apply_to_act` (whole-structural-element repeal):
only the `BEFORE_WITHOUT_ARTICLE` special shape is supported by the
source; a missing anchor article returns the act unchanged (warn
path), otherwise the subtitle/article child range is physically
deleted.  The `special is None` branch needs
`get_cut_points_for_structural_reference`, which depends on the
hun_law structural class hierarchy and is exercised by no claim. -/
def repealApplyToAct {Ref : Type} (s : StructuralRef) (act : ActWM Ref) :
    Except String (ActWM Ref × Bool) :=
  match s.special with
  | none => throw "structural repeal via get_cut_points_for_structural_reference: not modelled"
  | some (combo, article_id) =>
    if combo ≠ SubtitleArticleComboType.before_without_article then
      throw "Only BEFORE_WITHOUT_ARTICLE is supported for special subtitle repeals for now"
    else
      let end_cut := first_matching_index
        (fun c => match c with
          | ActChild.article a => a.identifier = article_id
          | _ => false) act.children
      if end_cut ≥ act.children.length then pure (act, false)
      else
        let start_cut := end_cut - 1
        pure ({ act with children := act.children.take start_cut ++ act.children.drop end_cut },
          true)

/-- `RepealApplier.apply`: dispatch on the position: an article-kind
`Reference` goes through `map_articles`, any other `Reference` through
`map_saes`, a `StructuralReference` through `apply_to_act`. -/
def repealApply {Ref : Type} [RefApi Ref] [DecidableEq Ref] (m : SemanticData Ref)
    (current_date : Date) (act : ActWM Ref) : Except String (ActWM Ref × Bool) :=
  match m with
  | .repeal (.ref position) _ =>
    match RefApi.kind position with
    | some RefKind.article => act.map_articles (article_repealer current_date) (some position)
    | _ => act.map_saes (sae_repealer current_date) (some position) false
  | .repeal (.structural s) _ => repealApplyToAct s act
  | _ => throw "assert isinstance(self.modification, Repeal)"

/-- `ArticleTitleAmendmentApplier.modifier`: substring replacement in
the article title only; `applied` reflects whether the original text
was present. -/
def article_title_modifier {Ref : Type} (original_text replacement_text : String) :
    Ref → Article Ref → Except String (Article Ref × Bool) := fun _reference article =>
  match article.title with
  | none => throw "assert article.title is not None"
  | some t =>
    pure ({ article with title := some (pyReplace original_text replacement_text t) },
      occursInStr original_text t)

/-- `ArticleTitleAmendmentApplier.apply`. -/
def articleTitleApply {Ref : Type} [RefApi Ref] [DecidableEq Ref] (m : SemanticData Ref)
    (act : ActWM Ref) : Except String (ActWM Ref × Bool) :=
  match m with
  | .articleTitleAmendment position original_text replacement_text =>
    match RefApi.kind position with
    | some RefKind.article =>
      act.map_articles (article_title_modifier original_text replacement_text) (some position)
    | _ => throw "assert reference_type is Article"
  | _ => throw "assert isinstance(self.modification, ArticleTitleAmendment)"

/-! ## Block amendment cut points and application -/

/-- The predicate of `get_cut_points_for_reference`'s `start_cut`
scan: the child has a `relative_reference` (structural headings do
not) and the range start is `<=` its reference relative to the
parent. -/
def childStartPred {Ref : Type} {α : Type} [RefApi Ref] (parentRef start_ref : Ref)
    (relRef : α → Option Ref) (c : α) : Bool :=
  match relRef c with
  | some rr => RefApi.le start_ref (RefApi.relativeTo rr parentRef)
  | none => false

/-- The predicate of the `end_cut` scan: no `relative_reference`, or
the range end is `<` the child's relative reference. -/
def childEndPred {Ref : Type} {α : Type} [RefApi Ref] (parentRef end_ref : Ref)
    (relRef : α → Option Ref) (c : α) : Bool :=
  match relRef c with
  | some rr => RefApi.lt end_ref (RefApi.relativeTo rr parentRef)
  | none => true

/-- The insertion walk-back of `get_cut_points_for_reference` /
`get_cut_points_for_special_reference`: starting from index `s`, walk
backward while the preceding child satisfies `p` (is a structural
heading), so insertions land above immediately preceding headings. -/
def backOff {α : Type} (p : α → Bool) (cs : List α) : Nat → Nat
  | 0 => 0
  | s + 1 =>
    match cs.get? s with
    | some c => if p c then backOff p cs s else s + 1
    | none => s + 1

/-- `BlockAmendmentApplier.get_cut_points_for_reference`, generic over
the child type (act children, paragraphs, points, subpoints). -/
def get_cut_points_for_reference {Ref : Type} {α : Type} [RefApi Ref]
    (position parentRef : Ref) (relRef : α → Option Ref) (isStruct : α → Bool)
    (children : List α) : Nat × Nat :=
  let start_ref := RefApi.firstInRange position
  let end_ref := RefApi.lastInRange position
  let start_cut := first_matching_index (childStartPred parentRef start_ref relRef) children
  let end_cut :=
    first_matching_index_from (childEndPred parentRef end_ref relRef) children start_cut
  if start_cut = end_cut then
    let b := backOff isStruct children start_cut
    (b, b)
  else (start_cut, end_cut)

/-- Whether an act child is a structural heading. -/
def isStructActChild {Ref : Type} : ActChild Ref → Bool
  | .structural _ => true
  | _ => false

/-- Whether an act child is a `Subtitle` heading. -/
def isSubtitleChild {Ref : Type} : ActChild Ref → Bool
  | .structural se => se.kind = StructuralKind.subtitle
  | _ => false

/-- The `relative_reference` of an act child (articles have one,
structural headings do not). -/
def actChildRelRef {Ref : Type} [RefApi Ref] : ActChild Ref → Option Ref
  | .article a => some (RefApi.articleRel a.identifier)
  | .structural _ => none

/-- `BlockAmendmentApplier.get_cut_points_for_special_reference`: find
the anchor article by identifier order, then shift the cut window
around the adjoining `Subtitle` per the combinator and
`pure_insertion`.  Index arithmetic that would go negative in Python
(anchor at index 0) is truncated at 0 here; no claim exercises it. -/
def get_cut_points_for_special_reference {Ref : Type} [RefApi Ref]
    (special : SubtitleArticleComboType × String) (pure_insertion : Bool)
    (children : List (ActChild Ref)) : Except String (Nat × Nat) :=
  let article_id := special.2
  let start_cut0 := first_matching_index
    (fun c => match c with
      | ActChild.article a => !(@RefApi.idLess Ref _ a.identifier article_id)
      | _ => false) children
  let found : Bool :=
    match children.get? start_cut0 with
    | some (ActChild.article a) => a.identifier = article_id
    | _ => false
  let (start_cut, end_cut) :=
    if found then (start_cut0, start_cut0 + 1)
    else
      let b := backOff isStructActChild children start_cut0
      (b, b)
  match special.1 with
  | .before_with_article =>
    if found then
      if (children.get? (start_cut - 1)).elim false isSubtitleChild then
        pure (start_cut - 1, end_cut)
      else throw "assert isinstance(children[start_cut], Subtitle)"
    else pure (start_cut, end_cut)
  | .before_without_article =>
    if !found then throw "BEFORE_WITHOUT_ARTICLE needs an existing article"
    else if pure_insertion then pure (start_cut, end_cut - 1)
    else if (children.get? (start_cut - 1)).elim false isSubtitleChild then
      pure (start_cut - 1, end_cut - 1)
    else throw "assert isinstance(children[start_cut-1], Subtitle)"
  | .after =>
    if !found then throw "AFTER needs an existing article"
    else if pure_insertion then pure (start_cut + 1, end_cut)
    else if (children.get? (start_cut + 1)).elim false isSubtitleChild then
      pure (start_cut + 1, end_cut + 1)
    else throw "assert isinstance(children[start_cut + 1], Subtitle)"

/-- The `assert isinstance(child, (ArticleWM, ArticleWMProxy,
StructuralElement))` of `BlockAmendmentApplier.apply_to_act` on each
new child. -/
def newChildToActChild {Ref : Type} : NewChild Ref → Except String (ActChild Ref)
  | .article a => pure (ActChild.article a)
  | .structural se => pure (ActChild.structural se)
  | _ => throw "assert isinstance(child, (ArticleWM, ArticleWMProxy, StructuralElement))"

/-- `BlockAmendmentApplier.compute_new_children` at act level: cut
points by position shape, then `children[:start] + new_children +
children[end:]`. -/
def computeNewChildrenAct {Ref : Type} [RefApi Ref] (position : AnyRef Ref)
    (pure_insertion : Bool) (new_children : List (NewChild Ref)) (parentRef : Ref)
    (children : List (ActChild Ref)) : Except String (List (ActChild Ref)) := do
  let cuts ← match position with
    | .ref r =>
      pure (get_cut_points_for_reference r parentRef actChildRelRef isStructActChild children)
    | .structural sr =>
      match sr.special with
      | some sp => get_cut_points_for_special_reference sp pure_insertion children
      | none => throw "structural block amendment cut points: not modelled"
  if cuts.1 ≤ cuts.2 then do
    let mid ← new_children.mapM newChildToActChild
    pure (children.take cuts.1 ++ mid ++ children.drop cuts.2)
  else throw "assert start_cut_point <= end_cut_point"

/-- `BlockAmendmentApplier.apply_to_act`. -/
def blockApplyToAct {Ref : Type} [RefApi Ref] (position : AnyRef Ref) (pure_insertion : Bool)
    (new_children : List (NewChild Ref)) (act : ActWM Ref) :
    Except String (ActWM Ref × Bool) := do
  let cs ← computeNewChildrenAct position pure_insertion new_children
    (RefApi.mkActRef act.identifier) act.children
  pure ({ act with children := cs }, true)

/-- The paragraph-level `relative_reference`. -/
def paragraphRelRef {Ref : Type} [RefApi Ref] (p : Paragraph Ref) : Option Ref :=
  some (RefApi.paragraphRel p.data.identifier)

/-- The point-level `relative_reference`. -/
def pointRelRef {Ref : Type} [RefApi Ref] (p : Point Ref) : Option Ref :=
  some (RefApi.pointRel p.data.identifier)

/-- The subpoint-level `relative_reference`. -/
def subpointRelRef {Ref : Type} [RefApi Ref] (s : Subpoint Ref) : Option Ref :=
  some (RefApi.subpointRel s.data.identifier)

/-- `BlockAmendmentApplier.apply_to_article`: replace a paragraph
range; each new child must be a metadata-bearing paragraph. -/
def blockApplyToArticle {Ref : Type} [RefApi Ref] (position : Ref)
    (new_children : List (NewChild Ref)) :
    Ref → Article Ref → Except String (Article Ref × Bool) := fun reference article => do
  let cuts := get_cut_points_for_reference position reference paragraphRelRef
    (fun _ => false) article.children
  if cuts.1 ≤ cuts.2 then do
    let mid ← new_children.mapM fun nc =>
      match nc with
      | NewChild.paragraph p =>
        if p.data.metadata.isSome then pure p
        else throw "assert isinstance(child, ParagraphWM)"
      | _ => throw "assert isinstance(child, ParagraphWM)"
    pure ({ article with
      children := article.children.take cuts.1 ++ mid ++ article.children.drop cuts.2 }, true)
  else throw "assert start_cut_point <= end_cut_point"

/-- A new child as a point (the source splices untyped tuples; a
non-point here would build an ill-typed tree). -/
def expectNewPoint {Ref : Type} : NewChild Ref → Except String (Point Ref)
  | .point p => pure p
  | _ => throw "ill-typed block amendment content"

/-- A new child as a subpoint. -/
def expectNewSubpoint {Ref : Type} : NewChild Ref → Except String (Subpoint Ref)
  | .subpoint s => pure s
  | _ => throw "ill-typed block amendment content"

/-- `BlockAmendmentApplier.apply_to_sae`: on the SAE whose reference
is the position's parent, replace the matching child range. -/
def blockApplyToSae {Ref : Type} [RefApi Ref] [DecidableEq Ref] (position : Ref)
    (new_children : List (NewChild Ref)) : Modifier Ref := fun reference sae =>
  if reference ≠ RefApi.parent position then pure (sae, false)
  else
    match sae with
    | .paragraph p =>
      match p.children with
      | some (.points ps) => do
        let cuts := get_cut_points_for_reference position reference pointRelRef
          (fun _ => false) ps
        if cuts.1 ≤ cuts.2 then do
          let mid ← new_children.mapM expectNewPoint
          pure (SaeNode.paragraph { p with
            children := some (.points (ps.take cuts.1 ++ mid ++ ps.drop cuts.2)) }, true)
        else throw "assert start_cut_point <= end_cut_point"
      | _ => throw "assert sae.children is not None"
    | .point pt =>
      match pt.children with
      | some sps => do
        let cuts := get_cut_points_for_reference position reference subpointRelRef
          (fun _ => false) sps
        if cuts.1 ≤ cuts.2 then do
          let mid ← new_children.mapM expectNewSubpoint
          pure (SaeNode.point { pt with
            children := some (sps.take cuts.1 ++ mid ++ sps.drop cuts.2) }, true)
        else throw "assert start_cut_point <= end_cut_point"
      | none => throw "assert sae.children is not None"
    | .subpoint _ => throw "assert sae.children is not None"

/-- `BlockAmendmentApplier.apply`: dispatch on the reference kind of
the position. -/
def blockApply {Ref : Type} [RefApi Ref] [DecidableEq Ref] (position : AnyRef Ref)
    (pure_insertion : Bool) (new_children : List (NewChild Ref)) (act : ActWM Ref) :
    Except String (ActWM Ref × Bool) :=
  match position with
  | .ref r =>
    match RefApi.kind r with
    | some RefKind.article => blockApplyToAct position pure_insertion new_children act
    | some RefKind.paragraph =>
      act.map_articles (blockApplyToArticle r new_children)
        (some (RefApi.articleScope act.identifier r))
    | some RefKind.point =>
      act.map_saes (blockApplyToSae r new_children) (some (RefApi.parent r)) false
    | some RefKind.subpoint =>
      act.map_saes (blockApplyToSae r new_children) (some (RefApi.parent r)) false
    | none => throw "assert expected_type is not None"
  | .structural _ => blockApplyToAct position pure_insertion new_children act

/-- `ModificationApplier.apply`, dispatched over the applier kinds. -/
def Applier.apply {Ref : Type} [RefApi Ref] [DecidableEq Ref] :
    Applier Ref → ActWM Ref → Except String (ActWM Ref × Bool)
  | .textReplacement _ _ _ position original_text replacement_text, act =>
    act.map_saes (text_replacer original_text replacement_text) (some position) false
  | .articleTitle m _ _, act => articleTitleApply m act
  | .repealApplier m _ current_date, act => repealApply m current_date act
  | .blockAmendment _ _ _ new_children position pure_insertion, act =>
    blockApply position pure_insertion new_children act

/-! ## ModificationSet (src/ajdb/amender.py) -/

/-- `ModificationSet`: the pending `(source SAE, modification)` pairs
for one target act on one date. -/
structure ModificationSet (Ref : Type) where
  modifications : List (SaeNode Ref × SemanticData Ref)

/-- The applier collection loop of `ModificationSet.apply_all`: for
each applier class in `APPLIER_CLASSES` order, construct an applier
from every modification its `can_apply` accepts. -/
def collectAppliers {Ref : Type} (ms : ModificationSet Ref) (current_date : Date) :
    Except String (List (Applier Ref)) := do
  let t ← (ms.modifications.filter fun sm => canApplyTextReplacement sm.2).mapM
    fun sm => mkTextReplacementApplier sm.2 sm.1 current_date
  let a := (ms.modifications.filter fun sm => canApplyArticleTitle sm.2).map
    fun sm => Applier.articleTitle sm.2 sm.1 current_date
  let r := (ms.modifications.filter fun sm => canApplyRepeal sm.2).map
    fun sm => Applier.repealApplier sm.2 sm.1 current_date
  let b ← (ms.modifications.filter fun sm => canApplyBlockAmendment sm.2).mapM
    fun sm => mkBlockAmendmentApplier sm.2 sm.1 current_date
  pure (t ++ a ++ r ++ b)

/-- One insertion step of the stable descending sort by priority
(Python's stable `list.sort(key=priority, reverse=True)`): an element
is placed before the first element of not-larger priority, so equal
priorities keep their original relative order. -/
def insertByPriorityDesc {Ref : Type} (a : Applier Ref) :
    List (Applier Ref) → List (Applier Ref)
  | [] => [a]
  | b :: bs =>
    if b.priority ≤ a.priority then a :: b :: bs
    else b :: insertByPriorityDesc a bs

/-- `appliers.sort(key=lambda x: x.priority, reverse=True)`: stable
descending sort. -/
def sortAppliers {Ref : Type} (l : List (Applier Ref)) : List (Applier Ref) :=
  l.foldr insertByPriorityDesc []

/-- The execution loop of `ModificationSet.apply_all`: run every
applier in order on the evolving act; an applier that ends with
`applied == False` contributes a warning (the source prints it) and
execution continues with the remaining appliers. -/
def applyAllAux {Ref : Type} [RefApi Ref] [DecidableEq Ref] :
    List (Applier Ref) → ActWM Ref → Except String (ActWM Ref × List (SemanticData Ref))
  | [], act => pure (act, [])
  | a :: rest, act => do
    let (act1, applied) ← a.apply act
    let (act2, warns) ← applyAllAux rest act1
    pure (act2, (if applied then [] else [a.modification]) ++ warns)

/-- `ModificationSet.apply_all`: collect, sort by descending priority,
execute. -/
def ModificationSet.apply_all {Ref : Type} [RefApi Ref] [DecidableEq Ref]
    (ms : ModificationSet Ref) (act : ActWM Ref) (current_date : Date) :
    Except String (ActWM Ref × List (SemanticData Ref)) := do
  let appliers ← collectAppliers ms current_date
  applyAllAux (sortAppliers appliers) act

/-! ## Amendment extraction (src/ajdb/amender.py) -/

/-- `modifications_per_act`: a `defaultdict(list)` keyed by target act
identifier. -/
def AmendmentBuckets (Ref : Type) : Type :=
  String → List (SaeNode Ref × SemanticData Ref)

/-- `defaultdict` append. -/
def bucketsAdd {Ref : Type} (b : AmendmentBuckets Ref) (k : String)
    (v : SaeNode Ref × SemanticData Ref) : AmendmentBuckets Ref :=
  fun k2 => if k2 = k then b k ++ [v] else b k2

/-- The `position` attribute every non-`EnforcementDate` semantic
directive carries (the source accesses it dynamically). -/
def nonEdPosition {Ref : Type} : SemanticData Ref → Option (AnyRef Ref)
  | .textAmendment p _ _ => some (.ref p)
  | .repeal p _ => some p
  | .articleTitleAmendment p _ _ => some (.ref p)
  | .blockAmendment p _ => some p
  | .enforcementDate _ _ _ => none

/-- The act component of a modification position. -/
def anyRefAct {Ref : Type} [RefApi Ref] : AnyRef Ref → Option String
  | .ref r => RefApi.refAct r
  | .structural s => s.act

/-- `AmendmentAndRepealExtractor.sae_walker` on one visited SAE (the
walker runs through `map_saes`, hence the working-representation
assertion): skip SAEs with no semantic data or not in force at the
date; for every other directive except an `EnforcementDate`, append
the `(source SAE, directive)` pair to the target act's bucket and a
synthetic `Repeal` of the SAE's own reference to the amending act's
own bucket. -/
def dirStep {Ref : Type} [RefApi Ref] (act_identifier : String) (reference : Ref)
    (sae : SaeNode Ref) (b : AmendmentBuckets Ref) (el : SemanticData Ref) :
    Except String (AmendmentBuckets Ref) :=
  match nonEdPosition el with
  | none => pure b
  | some pos =>
    match anyRefAct pos with
    | none => throw "assert modified_ref.act is not None"
    | some target =>
      pure (bucketsAdd (bucketsAdd b target (sae, el)) act_identifier
        (sae, SemanticData.repeal (.ref reference) none))

/-- See `dirStep`: the walker on one visited SAE. -/
def saeWalkerStep {Ref : Type} [RefApi Ref] (at_date : Date) (act_identifier : String)
    (buckets : AmendmentBuckets Ref) (entry : Ref × SaeNode Ref) :
    Except String (AmendmentBuckets Ref) :=
  let reference := entry.1
  let sae := entry.2
  match sae.data.metadata with
  | none => throw "asserting_modifier: SAE without metadata"
  | some md =>
    match sae.data.semantic_data with
    | none => pure buckets
    | some sd =>
      match md.enforcement_date with
      | none => throw "assert sae.metadata.enforcement_date is not None"
      | some ed =>
        if !(ed.is_in_force_at_date at_date) then pure buckets
        else sd.foldlM (dirStep act_identifier reference sae) buckets

/-- `AmendmentAndRepealExtractor.get_amendments_and_repeals`: walk
every SAE of the amending act in `map_saes` order, accumulating the
per-target buckets. -/
def get_amendments_and_repeals {Ref : Type} [RefApi Ref] (act : ActWM Ref) (at_date : Date) :
    Except String (AmendmentBuckets Ref) :=
  (walkAct act).foldlM (saeWalkerStep at_date act.identifier) (fun _ => [])

/-- Number of synthetic (or other) repeals in a bucket. -/
def countRepeals {Ref : Type} (l : List (SaeNode Ref × SemanticData Ref)) : Nat :=
  l.countP fun sm =>
    match sm.2 with
    | .repeal _ _ => true
    | _ => false

/-- Number of non-`EnforcementDate` directives one visited SAE
contributes when in force at the date (an SAE without semantic data
contributes nothing). -/
def entryDirCount {Ref : Type} (at_date : Date) (entry : Ref × SaeNode Ref) : Nat :=
  match entry.2.data.semantic_data with
  | none => 0
  | some sd =>
    match entry.2.data.metadata with
    | some md =>
      match md.enforcement_date with
      | some ed =>
        if ed.is_in_force_at_date at_date then
          sd.countP fun el => (nonEdPosition el).isSome
        else 0
      | none => 0
    | none => 0

/-- Number of non-`EnforcementDate` directives carried by the in-force
SAEs of an act at a date. -/
def countInForceDirectives {Ref : Type} [RefApi Ref] (act : ActWM Ref) (at_date : Date) : Nat :=
  ((walkAct act).map (entryDirCount at_date)).sum

/-! ## Content-addressed object storage (src/ajdb/object_storage.py)

The blob store state is the map from storage key to (decompressed)
blob bytes, as an association list in write order; the
canonical-JSON serializer (`json.dumps(..., sort_keys=True)` composed
with hun_law's `dict2object` converter) and the MD5 digest are
external collaborators, abstracted as the `encode`/`decode`/`hash`
parameters. -/

/-- The blob store contents: `(key, blob bytes)` pairs. -/
abbrev StoreState := List (String × String)

/-- Write a blob at a key: overwrite the blob file if the path
exists, create it otherwise. -/
def storePut : StoreState → String → String → StoreState
  | [], key, blob => [(key, blob)]
  | kv :: rest, key, blob =>
    if kv.1 = key then (key, blob) :: rest
    else kv :: storePut rest key blob

/-- `ObjectStorage.save`: serialize to canonical bytes, key by the
digest of those bytes (unless an explicit key is given), write the
blob at the key's path, return the key. -/
def ObjectStorage.save {α : Type} (encode : α → String) (hash : String → String)
    (st : StoreState) (data : α) (key : Option String) : String × StoreState :=
  let data_as_json_bytes := encode data
  let k := key.getD (hash data_as_json_bytes)
  (k, storePut st k data_as_json_bytes)

/-- `ObjectStorage.load`: read and decode the blob at the key;
a missing blob raises `KeyError`. -/
def ObjectStorage.load {α : Type} (decode : String → Option α) (st : StoreState)
    (key : String) : Except String α :=
  match st.find? fun kv => kv.1 = key with
  | none => throw "KeyError: object does not exist"
  | some kv =>
    match decode kv.2 with
    | some v => pure v
    | none => throw "JSON decode error"

/-- How many stored blobs hold the given bytes. -/
def countBlobsWith (st : StoreState) (blob : String) : Nat :=
  st.countP fun kv => kv.2 = blob

/-! ## A concrete reference implementation

A small concrete model of hun_law's `Reference` interface, used to
evaluate the theorems on concrete inputs: a locator with one optional
identifier per level, wildcard-prefix containment, and lexicographic
identifier order. -/

/-- A concrete single-identifier reference. -/
structure TRef where
  act : Option String := none
  article : Option String := none
  paragraph : Option String := none
  point : Option String := none
  subpoint : Option String := none
deriving DecidableEq, Repr

/-- Level containment: an absent level covers anything, a present one
must match. -/
def optCovers (x y : Option String) : Bool :=
  match x with
  | none => true
  | some v => y = some v

/-- Containment for `TRef`. -/
def TRef.containsB (a b : TRef) : Bool :=
  optCovers a.act b.act && optCovers a.article b.article &&
  optCovers a.paragraph b.paragraph && optCovers a.point b.point &&
  optCovers a.subpoint b.subpoint

/-- Lexicographic strict order on character lists by code point. -/
def strLessAux : List Char → List Char → Bool
  | [], [] => false
  | [], _ :: _ => true
  | _ :: _, [] => false
  | a :: as, b :: bs =>
    if a.toNat < b.toNat then true
    else if b.toNat < a.toNat then false
    else strLessAux as bs

/-- Lexicographic strict order on strings by code point (hun_law
compares identifier strings; spelled out on the character lists). -/
def strLess (a b : String) : Bool := strLessAux a.data b.data

/-- Strict order on `TRef` by the article component. -/
def TRef.ltB (a b : TRef) : Bool :=
  match a.article, b.article with
  | none, some _ => true
  | some x, some y => strLess x y
  | _, _ => false

/-- The most specific populated level of a `TRef`. -/
def TRef.kindOf (r : TRef) : Option RefKind :=
  if r.subpoint.isSome then some RefKind.subpoint
  else if r.point.isSome then some RefKind.point
  else if r.paragraph.isSome then some RefKind.paragraph
  else if r.article.isSome then some RefKind.article
  else none

/-- Drop the most specific populated level of a `TRef`. -/
def TRef.parentOf (r : TRef) : TRef :=
  if r.subpoint.isSome then { r with subpoint := none }
  else if r.point.isSome then { r with point := none }
  else if r.paragraph.isSome then { r with paragraph := none }
  else if r.article.isSome then { r with article := none }
  else { r with act := none }

instance : RefApi TRef where
  contains := TRef.containsB
  setAct r s := { r with act := some s }
  refAct r := r.act
  mkActRef s := { act := some s }
  mkArticleRef a b := { act := some a, article := some b }
  atArticle r i := { r with article := some i }
  atParagraph r i := { r with paragraph := i }
  atPoint r i := { r with point := i }
  atSubpoint r i := { r with subpoint := i }
  kind := TRef.kindOf
  parent := TRef.parentOf
  le a b := a = b || TRef.ltB a b
  lt := TRef.ltB
  relativeTo r _ := r
  firstInRange r := r
  lastInRange r := r
  articleRel i := { article := some i }
  paragraphRel i := { paragraph := i }
  pointRel i := { point := i }
  subpointRel i := { subpoint := i }
  articleScope a pos := { act := some a, article := pos.article }
  idLess a b := strLess a b

/-! ## Claim C4: the enforcement interval at its boundaries -/

/-! ## Specification-side definitions and worked examples for the claims

Pure characterizations compared against the monadic passes, frame
and counting functions used only in theorem statements, and the
concrete `TRef` objects of the witnesses. -/

/-- The interval the claim predicts for a node: that of the last
special interval (in declaration order) whose reference contains the
node's reference, else the default interval. -/
def pickCed {Ref : Type} [RefApi Ref] (eds : EnforcementDateSet Ref) (reference : Ref) :
    ConcreteEnforcementDate :=
  ((eds.specials.filter fun rc => RefApi.contains rc.1 reference).getLast?).elim
    eds.default Prod.snd

/-- A two-special enforcement date set for the C5 witness: both
specials contain the witness reference, the second is declared
later. -/
def exEds5 : EnforcementDateSet TRef :=
  { default := { from_date := ⟨2020, 1, 1⟩, to_date := none },
    specials :=
      [({ act := some "A" }, { from_date := ⟨2020, 2, 1⟩, to_date := none }),
       ({ act := some "A", article := some "1" },
         { from_date := ⟨2020, 3, 1⟩, to_date := none })] }

/-- The witness node reference. -/
def exRef5 : TRef := { act := some "A", article := some "1", paragraph := some "1" }

/-- The witness metadata. -/
def exMd5 : SaeMetadata TRef := { enforcement_date := none, last_modified := none }

/-- The witness SAE. -/
def exSae5 : SaeNode TRef :=
  SaeNode.paragraph { data := { identifier := some "1", metadata := some exMd5 } }

/-- Whether an applier is a `TextReplacementApplier`. -/
def isTextReplacementApplier {Ref : Type} : Applier Ref → Bool
  | .textReplacement _ _ _ _ _ _ => true
  | _ => false

/-- The target act of the C1 worked example: one article with one
paragraph whose text contains both "ABC" and "ABCD". -/
def exAct1 : ActWM TRef :=
  let pdata : SaeData TRef :=
    { identifier := some "1", text := some "This is ABC, and ABCD",
      metadata := some
        { enforcement_date := some { from_date := ⟨2020, 1, 1⟩, to_date := none },
          last_modified := none } }
  let p : Paragraph TRef := { data := pdata, children := none }
  { identifier := "T", publication_date := ⟨2020, 1, 1⟩, subject := "", preamble := "",
    children := [ActChild.article { identifier := "1", title := none, children := [p] }],
    interesting_dates := [] }

/-- The position both amendments target (the whole article). -/
def exPos1 : TRef := { act := some "T", article := some "1" }

/-- A placeholder amending SAE (text replacement never reads it). -/
def exSrcSae : SaeNode TRef := SaeNode.paragraph { data := {}, children := none }

/-- The two pending text amendments of the worked example. -/
def exMs1 : ModificationSet TRef :=
  { modifications :=
      [(exSrcSae, SemanticData.textAmendment exPos1 "ABC" "DEF"),
       (exSrcSae, SemanticData.textAmendment exPos1 "ABCD" "DEFG")] }

/-- The act the worked example must produce. -/
def exActResult1 : ActWM TRef :=
  let pdata : SaeData TRef :=
    { identifier := some "1", text := some "This is DEF, and DEFG",
      metadata := some
        { enforcement_date := some { from_date := ⟨2020, 1, 1⟩, to_date := none },
          last_modified := none } }
  let p : Paragraph TRef := { data := pdata, children := none }
  { identifier := "T", publication_date := ⟨2020, 1, 1⟩, subject := "", preamble := "",
    children := [ActChild.article { identifier := "1", title := none, children := [p] }],
    interesting_dates := [] }

/-- The text of the single paragraph of a one-article act. -/
def firstText {Ref : Type} (act : ActWM Ref) : Option String :=
  match act.children with
  | [ActChild.article a] =>
    match a.children with
    | [p] => p.data.text
    | _ => none
  | _ => none

/-- A well-formed act for the C3 witness: one default directive and
one targeted directive starting later. -/
def exAct3 : ActWM TRef :=
  let pdata : SaeData TRef :=
    { identifier := some "1", text := some "x",
      semantic_data := some
        [SemanticData.enforcementDate none (EDDate.date ⟨2020, 1, 2⟩) none,
         SemanticData.enforcementDate (some { paragraph := some "2" })
           (EDDate.date ⟨2020, 2, 1⟩) none] }
  let p : Paragraph TRef := { data := pdata, children := none }
  { identifier := "T3", publication_date := ⟨2020, 1, 1⟩, subject := "", preamble := "",
    children := [ActChild.article { identifier := "1", title := none, children := [p] }],
    interesting_dates := [] }

/-- The enforcement date set `from_act` resolves for `exAct3`. -/
def exEds3 : EnforcementDateSet TRef :=
  { default := { from_date := ⟨2020, 1, 2⟩, to_date := none },
    specials := [({ act := some "T3", paragraph := some "2" },
      { from_date := ⟨2020, 2, 1⟩, to_date := none })] }

/-- An act with no default enforcement directive at all. -/
def exAct3b : ActWM TRef :=
  let pdata : SaeData TRef :=
    { identifier := some "1", text := some "x", semantic_data := some [] }
  let p : Paragraph TRef := { data := pdata, children := none }
  { identifier := "T3", publication_date := ⟨2020, 1, 1⟩, subject := "", preamble := "",
    children := [ActChild.article { identifier := "1", title := none, children := [p] }],
    interesting_dates := [] }

/-- The `from_date` the repealer keeps from the node's resolved
metadata (the fallback value is never reached on working nodes). -/
def blankFromDate {Ref : Type} (current_date : Date) (d : SaeData Ref) : Date :=
  match d.metadata with
  | some md =>
    match md.enforcement_date with
    | some ed => ed.from_date
    | none => current_date
  | none => current_date

/-- The blanked shared fields `sae_repealer` rebuilds: same
identifier, not-enforced text, empty annotation tuples, interval
closed at the current date. -/
def blankSaeData {Ref : Type} (current_date : Date) (d : SaeData Ref) : SaeData Ref :=
  { identifier := d.identifier, text := some NOT_ENFORCED_TEXT, intro := none,
    wrap_up := none, semantic_data := some [], outgoing_references := some [],
    act_id_abbreviations := some [],
    metadata := some
      { enforcement_date := some
          { from_date := blankFromDate current_date d, to_date := some current_date },
        last_modified := none } }

/-- What an SAE-level repeal pass does to a subpoint. -/
def repealSpecSubpoint {Ref : Type} [RefApi Ref] (filt : Option Ref) (current_date : Date)
    (parentRef : Ref) (sp : Subpoint Ref) : Subpoint Ref :=
  if coveredBy filt (RefApi.atSubpoint parentRef sp.data.identifier) then
    { kind := sp.kind, data := blankSaeData current_date sp.data }
  else sp

/-- What an SAE-level repeal pass does to a point subtree. -/
def repealSpecPoint {Ref : Type} [RefApi Ref] (filt : Option Ref) (current_date : Date)
    (parentRef : Ref) (pt : Point Ref) : Point Ref :=
  let ref := RefApi.atPoint parentRef pt.data.identifier
  let pt1 : Point Ref :=
    if coveredBy filt ref then
      { kind := pt.kind, data := blankSaeData current_date pt.data, children := none }
    else pt
  { pt1 with children :=
      pt1.children.map fun sps => sps.map (repealSpecSubpoint filt current_date ref) }

/-- What an SAE-level repeal pass does to a paragraph subtree. -/
def repealSpecParagraph {Ref : Type} [RefApi Ref] (filt : Option Ref) (current_date : Date)
    (parentRef : Ref) (pg : Paragraph Ref) : Paragraph Ref :=
  let ref := RefApi.atParagraph parentRef pg.data.identifier
  let p1 : Paragraph Ref :=
    if coveredBy filt ref then { data := blankSaeData current_date pg.data, children := none }
    else pg
  { p1 with children :=
      match p1.children with
      | some (ParagraphChildren.points ps) =>
        some (ParagraphChildren.points (ps.map (repealSpecPoint filt current_date ref)))
      | other => other }

/-- What an SAE-level repeal pass does to an article. -/
def repealSpecArticle {Ref : Type} [RefApi Ref] (filt : Option Ref) (current_date : Date)
    (parentRef : Ref) (a : Article Ref) : Article Ref :=
  let newChildren :=
    a.children.map (repealSpecParagraph filt current_date (RefApi.atArticle parentRef a.identifier))
  { a with children := newChildren }

/-- An article-or-structural child transformed by an article map. -/
def specChild {Ref : Type} (specA : Article Ref → Article Ref) : ActChild Ref → ActChild Ref
  | ActChild.article a => ActChild.article (specA a)
  | c => c

/-- What an SAE-level repeal pass does to the whole act. -/
def repealSpecAct {Ref : Type} [RefApi Ref] (filt : Option Ref) (current_date : Date)
    (act : ActWM Ref) : ActWM Ref :=
  let newChildren :=
    act.children.map (specChild (repealSpecArticle filt current_date (RefApi.mkActRef act.identifier)))
  { act with children := newChildren }

/-- The identifier-level frame of an act: structural headings as they
are, articles as their identifier plus the ordered identifiers of
their paragraphs. -/
def actFrame {Ref : Type} (act : ActWM Ref) :
    List (StructuralElement ⊕ (String × List (Option String))) :=
  act.children.map fun c =>
    match c with
    | ActChild.structural se => Sum.inl se
    | ActChild.article a => Sum.inr (a.identifier, a.children.map fun p => p.data.identifier)

/-- The ordered identifiers of a paragraph's points, when it has
point children. -/
def paragraphPointIds {Ref : Type} (p : Paragraph Ref) : Option (List (Option String)) :=
  match p.children with
  | some (ParagraphChildren.points ps) => some (ps.map fun pt => pt.data.identifier)
  | _ => none

/-- The ordered identifiers of a point's subpoints. -/
def pointSubIds {Ref : Type} (pt : Point Ref) : Option (List (Option String)) :=
  pt.children.map fun l => l.map fun sp => sp.data.identifier

/-- The resolved interval of the C9 witness nodes. -/
def exCed9 : ConcreteEnforcementDate := { from_date := ⟨2020, 1, 1⟩, to_date := none }

/-- The metadata of the C9 witness nodes. -/
def exMd9 : SaeMetadata TRef := { enforcement_date := some exCed9, last_modified := none }

/-- Witness point (a). -/
def exPointA : Point TRef :=
  { kind := PointKind.alphabetic,
    data := { identifier := some "a", text := some "alpha", metadata := some exMd9 },
    children := none }

/-- Witness point (b), the repeal target. -/
def exPointB : Point TRef :=
  { kind := PointKind.alphabetic,
    data := { identifier := some "b", text := some "beta", metadata := some exMd9 },
    children := none }

/-- Witness paragraph holding the two points. -/
def exPara9 : Paragraph TRef :=
  { data := { identifier := some "1", intro := some "intro", metadata := some exMd9 },
    children := some (ParagraphChildren.points [exPointA, exPointB]) }

/-- Witness act for C9. -/
def exAct9 : ActWM TRef :=
  { identifier := "T9", publication_date := ⟨2020, 1, 1⟩, subject := "", preamble := "",
    children := [ActChild.article { identifier := "1", title := none, children := [exPara9] }],
    interesting_dates := [] }

/-- The point-level repeal position of the C9 witness. -/
def exPos9 : TRef :=
  { act := some "T9", article := some "1", paragraph := some "1", point := some "b" }

/-- The target reference of the C8 witness directive. -/
def exTgt8 : TRef := { act := some "TGT" }

/-- The enforcement interval of the C8 witness SAE. -/
def exCed8 : ConcreteEnforcementDate := { from_date := ⟨2020, 1, 1⟩, to_date := none }

/-- The metadata of the C8 witness SAE. -/
def exMd8 : SaeMetadata TRef := { enforcement_date := some exCed8, last_modified := none }

/-- The single repeal directive the C8 witness act carries. -/
def exSd8 : List (SemanticData TRef) := [SemanticData.repeal (AnyRef.ref exTgt8) none]

/-- The C8 witness paragraph carrying the directive. -/
def exPara8 : Paragraph TRef :=
  let d : SaeData TRef :=
    { identifier := some "1", text := some "repealer",
      semantic_data := some exSd8, metadata := some exMd8 }
  { data := d, children := none }

/-- The C8 witness amending act. -/
def exAct8 : ActWM TRef :=
  { identifier := "A8", publication_date := ⟨2020, 1, 1⟩, subject := "", preamble := "",
    children := [ActChild.article { identifier := "1", title := none, children := [exPara8] }],
    interesting_dates := [] }

/-- The own reference of the C8 witness paragraph inside its act. -/
def exSelf8 : TRef := { act := some "A8", article := some "1", paragraph := some "1" }

/-- The buckets the extractor computes on the C8 witness act. -/
def exBuckets8 : AmendmentBuckets TRef :=
  bucketsAdd
    (bucketsAdd (fun _ => []) "TGT"
      (SaeNode.paragraph exPara8, SemanticData.repeal (AnyRef.ref exTgt8) none))
    "A8"
    (SaeNode.paragraph exPara8, SemanticData.repeal (AnyRef.ref exSelf8) none)

/-- A subpoint with no working metadata yet. -/
def bareSubpoint {Ref : Type} (sp : Subpoint Ref) : Bool := sp.data.metadata.isNone

/-- A point subtree with no working metadata yet. -/
def barePoint {Ref : Type} (pt : Point Ref) : Bool :=
  pt.data.metadata.isNone && (pt.children.getD []).all bareSubpoint

/-- A block-content paragraph subtree with no working metadata yet. -/
def bareBParagraph {Ref : Type} (p : BParagraph Ref) : Bool :=
  p.data.metadata.isNone && (p.children.getD []).all barePoint

/-- A block-content article with no working metadata anywhere. -/
def bareBArticle {Ref : Type} (a : BArticle Ref) : Bool :=
  a.children.all bareBParagraph

/-- Pure counterpart of `stampData` on a bare SAE. -/
def stampDataSpec {Ref : Type} (d : Date) (sd : SaeData Ref) : SaeData Ref :=
  { sd with metadata := some (stampMetadata d) }

/-- Pure counterpart of `stampSubpoint` on a bare subpoint. -/
def stampSubpointSpec {Ref : Type} (d : Date) (sp : Subpoint Ref) : Subpoint Ref :=
  { sp with data := stampDataSpec d sp.data }

/-- Pure counterpart of `stampPoint` on a bare point subtree. -/
def stampPointSpec {Ref : Type} (d : Date) (pt : Point Ref) : Point Ref :=
  { pt with data := stampDataSpec d pt.data,
            children := pt.children.map fun sps => sps.map (stampSubpointSpec d) }

/-- Pure counterpart of `stampBParagraph` on a bare paragraph subtree. -/
def stampBParagraphSpec {Ref : Type} (d : Date) (p : BParagraph Ref) : BParagraph Ref :=
  { p with data := stampDataSpec d p.data,
           children := p.children.map fun ps => ps.map (stampPointSpec d) }

/-- Pure counterpart of `stampBlockChild` followed by `toArticleWM` on
a bare block-content article. -/
def stampBArticleSpec {Ref : Type} (d : Date) (a : BArticle Ref) : Article Ref :=
  { identifier := a.identifier, title := a.title,
    children := (a.children.map (stampBParagraphSpec d)).map bparagraphToParagraph }

/-- The shared-field records of every SAE of an article. -/
def articleSaeDatas {Ref : Type} (a : Article Ref) : List (SaeData Ref) :=
  a.children.flatMap fun p =>
    p.data :: (match p.children with
      | some (ParagraphChildren.points ps) =>
        ps.flatMap fun pt => pt.data :: (pt.children.getD []).map Subpoint.data
      | _ => [])

/-- The single paragraph of the C7 witness article. -/
def exBPara7 : BParagraph TRef := { data := { text := some "friss" }, children := none }

/-- The new article the C7 witness inserts. -/
def exA5A7 : BArticle TRef := { identifier := "5/A", title := none, children := [exBPara7] }

/-- The C7 witness anchor article (5). -/
def exArt5 : Article TRef := { identifier := "5", title := none, children := [] }

/-- The C7 witness anchor article (6). -/
def exArt6 : Article TRef := { identifier := "6", title := none, children := [] }

/-- The C7 witness act, holding articles 5 and 6. -/
def exAct7 : ActWM TRef :=
  { identifier := "T7", publication_date := ⟨2020, 1, 1⟩, subject := "", preamble := "",
    children := [ActChild.article exArt5, ActChild.article exArt6],
    interesting_dates := [] }

/-- The insertion position of the C7 witness. -/
def exPos7 : TRef := { act := some "T7", article := some "5/A" }

/-- The source paragraph of the C7 witness, holding the container. -/
def exSrc7 : Paragraph TRef :=
  { data := {},
    children := some (ParagraphChildren.blockAmendmentContainer [BlockChild.article exA5A7]) }

/-- Boolean total-order bridging lemma for the date order. -/
theorem date_not_lt (a b : Date) : (Date.lt a b = false) ↔ Date.le b a = true := by
  simp only [Date.lt, Date.le, decide_eq_true_eq, decide_eq_false_iff_not]
  constructor
  · intro h
    rcases Nat.lt_trichotomy a.year b.year with hy | hy | hy
    · exact absurd (Or.inl hy) h
    · rcases Nat.lt_trichotomy a.month b.month with hm | hm | hm
      · exact absurd (Or.inr ⟨hy, Or.inl hm⟩) h
      · rcases Nat.lt_trichotomy a.day b.day with hd | hd | hd
        · exact absurd (Or.inr ⟨hy, Or.inr ⟨hm, hd⟩⟩) h
        · left
          cases a; cases b
          simp_all
        · right; right; exact ⟨hy.symm, Or.inr ⟨hm.symm, hd⟩⟩
      · right; right; exact ⟨hy.symm, Or.inl hm⟩
    · right; left; exact hy
  · intro h hlt
    rcases h with h | h
    · subst h
      rcases hlt with h1 | ⟨_, h2 | ⟨_, h3⟩⟩ <;> omega
    · rcases hlt with h1 | ⟨he, h2 | ⟨hm, h3⟩⟩ <;>
        rcases h with h4 | ⟨he2, h5 | ⟨hm2, h6⟩⟩ <;> omega

/-- C4 (counterexample): the claim says the interval is half-open, so
a node is not in force on its `to_date`; but on the interval
`[2020-01-01, to_date = 2020-01-02]` the code reports the node in
force on 2020-01-02 even though 2020-01-02 is not strictly before the
`to_date`. -/
theorem claim4_counterexample :
    ConcreteEnforcementDate.is_in_force_at_date
      { from_date := ⟨2020, 1, 1⟩, to_date := some ⟨2020, 1, 2⟩ } ⟨2020, 1, 2⟩ = true
    ∧ Date.lt ⟨2020, 1, 2⟩ ⟨2020, 1, 2⟩ = false := by
  exact ⟨by decide, by decide⟩

/-- The strict date order is the negation of the reversed non-strict
order. -/
theorem date_lt_iff_not_le (a b : Date) : Date.lt a b = true ↔ Date.le b a = false := by
  have h := date_not_lt a b
  cases hl : Date.lt a b <;> cases hle : Date.le b a <;> simp_all

/-- C4 (amended): the resolved enforcement interval is closed at both
ends: the node's content is in force at `d` if and only if
`from_date <= d` and, when a `to_date` is present, `d <= to_date` —
in particular a node is still in force on its `to_date`. -/
theorem claim4_amended (ced : ConcreteEnforcementDate) (d : Date) :
    ced.is_in_force_at_date d = true ↔
      (Date.le ced.from_date d = true ∧
        ∀ t, ced.to_date = some t → Date.le d t = true) := by
  unfold ConcreteEnforcementDate.is_in_force_at_date
  cases hlt : Date.lt d ced.from_date with
  | true =>
    have h1 : Date.le ced.from_date d = false := (date_lt_iff_not_le d ced.from_date).mp hlt
    simp [hlt, h1]
  | false =>
    have h1 : Date.le ced.from_date d = true := (date_not_lt d ced.from_date).mp hlt
    cases hto : ced.to_date with
    | none => simp [hlt, h1, hto]
    | some t =>
      cases h2 : Date.lt t d with
      | true =>
        have h3 : Date.le d t = false := (date_lt_iff_not_le t d).mp h2
        simp [hlt, h1, hto, h2, h3]
      | false =>
        have h3 : Date.le d t = true := (date_not_lt t d).mp h2
        simp [hlt, h1, hto, h2, h3]

/-! ## Claim C2: idempotent content addressing -/

/-- Re-writing the same blob at the same key leaves the store
unchanged. -/
theorem storePut_storePut (st : StoreState) (k b : String) :
    storePut (storePut st k b) k b = storePut st k b := by
  induction st with
  | nil => simp [storePut]
  | cons kv rest ih =>
    by_cases h : kv.1 = k
    · simp [storePut, h]
    · simp [storePut, h, ih]

/-- After a write, the blob at the key is the written one. -/
theorem find?_storePut (st : StoreState) (k b : String) :
    (storePut st k b).find? (fun kv => kv.1 = k) = some (k, b) := by
  induction st with
  | nil => simp [storePut]
  | cons kv rest ih =>
    by_cases h : kv.1 = k
    · simp [storePut, h, List.find?]
    · simp [storePut, h, List.find?, ih]

/-- C2: for a serializable value `x` (one its codec round-trips),
saving twice returns the same key both times, the second save leaves
the store exactly as the first left it, loading the returned key
yields `x` back, and saving into an empty store stores exactly one
blob holding `x`'s serialized form. -/
theorem claim2 {α : Type} (encode : α → String) (decode : String → Option α)
    (hash : String → String) (st : StoreState) (x : α)
    (hdec : decode (encode x) = some x) :
    (ObjectStorage.save encode hash
        (ObjectStorage.save encode hash st x none).2 x none).1
      = (ObjectStorage.save encode hash st x none).1
    ∧ (ObjectStorage.save encode hash
        (ObjectStorage.save encode hash st x none).2 x none).2
      = (ObjectStorage.save encode hash st x none).2
    ∧ ObjectStorage.load decode
        (ObjectStorage.save encode hash
          (ObjectStorage.save encode hash st x none).2 x none).2
        (ObjectStorage.save encode hash st x none).1 = Except.ok x
    ∧ countBlobsWith (ObjectStorage.save encode hash [] x none).2 (encode x) = 1 := by
  refine ⟨rfl, ?_, ?_, ?_⟩
  · simp only [ObjectStorage.save, Option.getD]
    exact storePut_storePut st (hash (encode x)) (encode x)
  · simp only [ObjectStorage.save, ObjectStorage.load, Option.getD]
    rw [storePut_storePut, find?_storePut]
    simp [hdec]
    rfl
  · simp [ObjectStorage.save, storePut, countBlobsWith]

/-- C2 (witness): the storage round trip evaluated on a concrete
value with a concrete codec. -/
theorem claim2_witness :
    ((fun s : String => some s.data.length) ((fun n : Nat => String.mk (List.replicate n 'a')) 3) = some 3)
    ∧ ((ObjectStorage.save (fun n : Nat => String.mk (List.replicate n 'a')) (fun s => s)
          (ObjectStorage.save (fun n : Nat => String.mk (List.replicate n 'a')) (fun s => s) [] 3 none).2
          3 none).1
        = (ObjectStorage.save (fun n : Nat => String.mk (List.replicate n 'a')) (fun s => s) [] 3 none).1
      ∧ (ObjectStorage.save (fun n : Nat => String.mk (List.replicate n 'a')) (fun s => s)
          (ObjectStorage.save (fun n : Nat => String.mk (List.replicate n 'a')) (fun s => s) [] 3 none).2
          3 none).2
        = (ObjectStorage.save (fun n : Nat => String.mk (List.replicate n 'a')) (fun s => s) [] 3 none).2
      ∧ ObjectStorage.load (fun s : String => some s.data.length)
          (ObjectStorage.save (fun n : Nat => String.mk (List.replicate n 'a')) (fun s => s)
            (ObjectStorage.save (fun n : Nat => String.mk (List.replicate n 'a')) (fun s => s) [] 3 none).2
            3 none).2
          (ObjectStorage.save (fun n : Nat => String.mk (List.replicate n 'a')) (fun s => s) [] 3 none).1
        = Except.ok 3
      ∧ countBlobsWith
          (ObjectStorage.save (fun n : Nat => String.mk (List.replicate n 'a')) (fun s => s) [] 3 none).2
          ((fun n : Nat => String.mk (List.replicate n 'a')) 3) = 1) :=
  ⟨by decide,
    claim2 (fun n : Nat => String.mk (List.replicate n 'a'))
      (fun s : String => some s.data.length) (fun s => s) [] 3 (by decide)⟩

/-! ## Claim C5: most specific enclosing special wins -/

/-- `Option.elim` over `getLast?` of a cons peels the head into the
default slot. -/
theorem getLast?_elim_cons {γ δ : Type} (a : γ) (l : List γ) (d : δ) (f : γ → δ) :
    ((a :: l).getLast?).elim d f = (l.getLast?).elim (f a) f := by
  cases l with
  | nil => simp
  | cons b bs =>
    have h : (b :: bs).getLast?.isSome := by simp [List.getLast?_isSome]
    rcases Option.isSome_iff_exists.mp h with ⟨x, hx⟩
    simp [List.getLast?_cons_cons, hx]

/-- The overwrite fold of `sae_modifier` selects the last matching
special, or its starting accumulator. -/
theorem foldl_overwrite_eq_getLast {Ref : Type} [RefApi Ref]
    (l : List (Ref × ConcreteEnforcementDate)) (reference : Ref)
    (dflt : ConcreteEnforcementDate) :
    l.foldl (fun acc rc => if RefApi.contains rc.1 reference then rc.2 else acc) dflt
      = ((l.filter fun rc => RefApi.contains rc.1 reference).getLast?).elim dflt Prod.snd := by
  induction l generalizing dflt with
  | nil => simp
  | cons rc rest ih =>
    by_cases h : RefApi.contains rc.1 reference = true
    · simp only [List.foldl_cons, List.filter_cons, if_pos h]
      rw [ih rc.2, getLast?_elim_cons]
    · simp only [List.foldl_cons, List.filter_cons, if_neg h]
      exact ih dflt

/-- C5: resolving a node's enforcement interval assigns the interval
of the last targeted (special) interval in declaration order whose
reference contains the node's reference, falling back to the default
interval when no special contains it; everything else about the node
is kept. -/
theorem claim5 {Ref : Type} [RefApi Ref] (eds : EnforcementDateSet Ref)
    (reference : Ref) (sae : SaeNode Ref) (md : SaeMetadata Ref)
    (hmd : sae.data.metadata = some md) :
    eds.sae_modifier reference sae =
      Except.ok (sae.withData
        { sae.data with
          metadata := some { md with enforcement_date := some (pickCed eds reference) } }) := by
  unfold EnforcementDateSet.sae_modifier
  rw [hmd]
  rw [foldl_overwrite_eq_getLast]
  rfl

/-- C5 (witness): on a node contained in both specials, the
later-declared one wins. -/
theorem claim5_witness :
    exSae5.data.metadata = some exMd5
    ∧ EnforcementDateSet.sae_modifier exEds5 exRef5 exSae5 =
        Except.ok (exSae5.withData
          { exSae5.data with
            metadata := some { exMd5 with enforcement_date := some (pickCed exEds5 exRef5) } })
    ∧ pickCed exEds5 exRef5 = { from_date := ⟨2020, 3, 1⟩, to_date := none } :=
  ⟨rfl, claim5 exEds5 exRef5 exSae5 exMd5 rfl, by decide⟩

/-! ## Claim C1: priority ordering of appliers -/

/-- Membership in the insertion step of the priority sort. -/
theorem mem_insertByPriorityDesc {Ref : Type} (a x : Applier Ref) (l : List (Applier Ref)) :
    x ∈ insertByPriorityDesc a l ↔ x = a ∨ x ∈ l := by
  induction l with
  | nil => simp [insertByPriorityDesc]
  | cons b bs ih =>
    by_cases h : b.priority ≤ a.priority
    · simp [insertByPriorityDesc, h]
    · simp [insertByPriorityDesc, h, ih]
      tauto

/-- Inserting into a descending-sorted list keeps it sorted. -/
theorem pairwise_insertByPriorityDesc {Ref : Type} (a : Applier Ref) (l : List (Applier Ref))
    (h : List.Pairwise (fun x y => Applier.priority y ≤ Applier.priority x) l) :
    List.Pairwise (fun x y => Applier.priority y ≤ Applier.priority x)
      (insertByPriorityDesc a l) := by
  induction l with
  | nil => simp [insertByPriorityDesc]
  | cons b bs ih =>
    rcases List.pairwise_cons.mp h with ⟨hb, hbs⟩
    by_cases hle : b.priority ≤ a.priority
    · simp only [insertByPriorityDesc, if_pos hle]
      refine List.pairwise_cons.mpr ⟨?_, h⟩
      intro x hx
      rcases List.mem_cons.mp hx with hx | hx
      · subst hx
        exact hle
      · exact Nat.le_trans (hb x hx) hle
    · simp only [insertByPriorityDesc, if_neg hle]
      refine List.pairwise_cons.mpr ⟨?_, ih hbs⟩
      intro x hx
      rcases (mem_insertByPriorityDesc a x bs).mp hx with hx | hx
      · subst hx
        exact Nat.le_of_lt (Nat.lt_of_not_le hle)
      · exact hb x hx

/-- The applier sort produces a descending-priority sequence. -/
theorem sortAppliers_sorted {Ref : Type} (l : List (Applier Ref)) :
    List.Pairwise (fun x y => Applier.priority y ≤ Applier.priority x) (sortAppliers l) := by
  induction l with
  | nil => simp [sortAppliers]
  | cons x xs ih => exact pairwise_insertByPriorityDesc x _ ih

/-- C1: `apply_all` executes the collected appliers as one globally
sorted sequence of descending priority, a `TextReplacementApplier`'s
priority is the length of its original text while every other applier
has priority 0; consequently on the worked example the longer
original "ABCD" is replaced before its prefix "ABC" and the result is
"This is DEF, and DEFG", never the corrupted "This is DEF, and
DEFD". -/
theorem claim1 :
    (∀ (Ref : Type) (l : List (Applier Ref)),
      List.Pairwise (fun x y => Applier.priority y ≤ Applier.priority x) (sortAppliers l))
    ∧ (∀ (Ref : Type) (m : SemanticData Ref) (sae : SaeNode Ref) (d : Date) (pos : Ref)
        (o r : String), (Applier.textReplacement m sae d pos o r).priority = o.length)
    ∧ (∀ (Ref : Type) (a : Applier Ref),
        isTextReplacementApplier a = false → a.priority = 0)
    ∧ (∀ (Ref : Type) (inst : RefApi Ref) (instEq : DecidableEq Ref)
        (ms : ModificationSet Ref) (act : ActWM Ref) (d : Date)
        (appliers : List (Applier Ref)), collectAppliers ms d = Except.ok appliers →
        ms.apply_all act d = applyAllAux (sortAppliers appliers) act)
    ∧ exMs1.apply_all exAct1 ⟨2021, 1, 1⟩ = Except.ok (exActResult1, [])
    ∧ firstText exActResult1 = some "This is DEF, and DEFG"
    ∧ firstText exActResult1 ≠ some "This is DEF, and DEFD" := by
  refine ⟨?_, ?_, ?_, ?_, ?_, ?_, ?_⟩
  · intro Ref l
    exact sortAppliers_sorted l
  · intro Ref m sae d pos o r
    rfl
  · intro Ref a h
    cases a <;> first | rfl | (exact absurd h (by simp [isTextReplacementApplier]))
  · intro Ref inst instEq ms act d appliers h
    unfold ModificationSet.apply_all
    rw [h]
    rfl
  · rfl
  · rfl
  · intro h
    simp [firstText, exActResult1] at h

/-- C1 (witness): the priority-0 fact and `apply_all` unfolding
discharged at concrete inputs. -/
theorem claim1_witness :
    (isTextReplacementApplier
        (Applier.repealApplier (SemanticData.repeal (.ref exPos1) none) exSrcSae
          ⟨2021, 1, 1⟩) = false)
    ∧ (Applier.repealApplier (SemanticData.repeal (AnyRef.ref exPos1) none) exSrcSae
        ⟨2021, 1, 1⟩ : Applier TRef).priority = 0
    ∧ (collectAppliers exMs1 ⟨2021, 1, 1⟩ = Except.ok
        [Applier.textReplacement (SemanticData.textAmendment exPos1 "ABC" "DEF") exSrcSae
            ⟨2021, 1, 1⟩ exPos1 "ABC" "DEF",
         Applier.textReplacement (SemanticData.textAmendment exPos1 "ABCD" "DEFG") exSrcSae
            ⟨2021, 1, 1⟩ exPos1 "ABCD" "DEFG"])
    ∧ exMs1.apply_all exAct1 ⟨2021, 1, 1⟩ =
        applyAllAux (sortAppliers
          [Applier.textReplacement (SemanticData.textAmendment exPos1 "ABC" "DEF") exSrcSae
              ⟨2021, 1, 1⟩ exPos1 "ABC" "DEF",
           Applier.textReplacement (SemanticData.textAmendment exPos1 "ABCD" "DEFG") exSrcSae
              ⟨2021, 1, 1⟩ exPos1 "ABCD" "DEFG"]) exAct1 :=
  ⟨rfl, claim1.2.2.1 TRef _ rfl, by rfl,
    claim1.2.2.2.1 TRef _ _ exMs1 exAct1 ⟨2021, 1, 1⟩ _ (by rfl)⟩

/-! ## Claim C3: from_act default directive invariants -/

/-- Destructuring successful `Except` binds. -/
theorem except_bind_ok {ε α β : Type} (e : Except ε α) (f : α → Except ε β) (b : β)
    (h : (e >>= f) = Except.ok b) : ∃ a, e = Except.ok a ∧ f a = Except.ok b := by
  cases e with
  | error err => simp [Bind.bind, Except.bind] at h
  | ok a => exact ⟨a, rfl, by simpa [Bind.bind, Except.bind] using h⟩

/-- The inner collection loop accounts for exactly the default
directives it sees: the default slot flips from empty to filled on the
single allowed default. -/
theorem edCollect_inner_count {Ref : Type} [RefApi Ref] (aid : String) (pd : Date)
    (els : List (SemanticData Ref)) :
    ∀ st st', els.foldlM (edCollectStep aid pd) st = Except.ok st' →
      (if st'.1.isSome then 1 else 0)
        = (if st.1.isSome then 1 else 0) + els.countP isDefaultEd := by
  induction els with
  | nil =>
    intro st st' h
    simp only [List.foldlM_nil] at h
    cases h
    simp
  | cons el rest ih =>
    intro st st' h
    rw [List.foldlM_cons] at h
    obtain ⟨st1, h1, h2⟩ := except_bind_ok _ _ _ h
    have hrec := ih st1 st' h2
    cases el with
    | enforcementDate pos date repeal_date =>
      cases pos with
      | none =>
        cases hd : st.1 with
        | some c =>
          simp only [edCollectStep, hd] at h1
          simp [throw, throwThe] at h1
        | none =>
          simp only [edCollectStep, hd, pure, Except.pure, Except.ok.injEq] at h1
          subst h1
          simp [List.countP_cons, isDefaultEd, hd] at hrec ⊢
          omega
      | some p =>
        simp only [edCollectStep, pure, Except.pure, Except.ok.injEq] at h1
        subst h1
        simp [List.countP_cons, isDefaultEd] at hrec ⊢
        omega
    | textAmendment p o r =>
      simp only [edCollectStep, pure, Except.pure, Except.ok.injEq] at h1
      subst h1
      simp [List.countP_cons, isDefaultEd] at hrec ⊢
      omega
    | repeal p t =>
      simp only [edCollectStep, pure, Except.pure, Except.ok.injEq] at h1
      subst h1
      simp [List.countP_cons, isDefaultEd] at hrec ⊢
      omega
    | articleTitleAmendment p o r =>
      simp only [edCollectStep, pure, Except.pure, Except.ok.injEq] at h1
      subst h1
      simp [List.countP_cons, isDefaultEd] at hrec ⊢
      omega
    | blockAmendment p pi =>
      simp only [edCollectStep, pure, Except.pure, Except.ok.injEq] at h1
      subst h1
      simp [List.countP_cons, isDefaultEd] at hrec ⊢
      omega

/-- The outer collection loop accounts for every default directive of
the iterated SAEs. -/
theorem edCollect_outer_count {Ref : Type} [RefApi Ref] (aid : String) (pd : Date)
    (saes : List (SaeNode Ref)) :
    ∀ st st', saes.foldlM (edCollectSae aid pd) st = Except.ok st' →
      (if st'.1.isSome then 1 else 0)
        = (if st.1.isSome then 1 else 0)
          + (saes.map fun sae =>
              (sae.data.semantic_data.getD []).countP isDefaultEd).sum := by
  induction saes with
  | nil =>
    intro st st' h
    simp only [List.foldlM_nil] at h
    cases h
    simp
  | cons sae rest ih =>
    intro st st' h
    rw [List.foldlM_cons] at h
    obtain ⟨st1, h1, h2⟩ := except_bind_ok _ _ _ h
    have hrec := ih st1 st' h2
    cases hsd : sae.data.semantic_data with
    | none => rw [edCollectSae, hsd] at h1; simp [throw, throwThe] at h1
    | some sd =>
      rw [edCollectSae, hsd] at h1
      have hinner := edCollect_inner_count aid pd sd st st1 h1
      simp only [List.map_cons, List.sum_cons, hsd, Option.getD_some]
      omega

/-- C3: a successful `from_act` implies the act carries exactly one
default enforcement directive and every returned special interval
starts no earlier than the default and carries no `to_date`;
conversely an act with zero or more than one default directives never
yields a result (the assertion is fatal). -/
theorem claim3 {Ref : Type} [RefApi Ref] (act : ActWM Ref) :
    (∀ eds : EnforcementDateSet Ref, EnforcementDateSet.from_act act = Except.ok eds →
      countDefaultEds act = 1
      ∧ ∀ sc ∈ eds.specials,
          Date.le eds.default.from_date sc.2.from_date = true ∧ sc.2.to_date = none)
    ∧ (countDefaultEds act ≠ 1 →
        ∀ eds : EnforcementDateSet Ref, EnforcementDateSet.from_act act ≠ Except.ok eds) := by
  have main : ∀ eds : EnforcementDateSet Ref,
      EnforcementDateSet.from_act act = Except.ok eds →
      countDefaultEds act = 1
      ∧ ∀ sc ∈ eds.specials,
          Date.le eds.default.from_date sc.2.from_date = true ∧ sc.2.to_date = none := by
    intro eds h
    unfold EnforcementDateSet.from_act at h
    obtain ⟨st, hfold, hrest⟩ := except_bind_ok _ _ _ h
    obtain ⟨dflt, specials⟩ := st
    cases hd : dflt with
    | none =>
      rw [hd] at hrest
      dsimp only at hrest
      simp [throw, throwThe] at hrest
    | some default =>
      rw [hd] at hrest
      dsimp only at hrest
      cases hall1 : (specials.all fun sc => Date.le default.from_date sc.2.from_date) with
      | false =>
        simp only [hall1, Bool.not_false, if_true] at hrest
        simp [throw, throwThe] at hrest
      | true =>
        simp only [hall1, Bool.not_true, Bool.false_eq_true, if_false] at hrest
        cases hall2 : (specials.all fun sc => sc.2.to_date = none) with
        | false =>
          simp only [hall2, Bool.not_false, if_true] at hrest
          simp [throw, throwThe] at hrest
        | true =>
          simp only [hall2, Bool.not_true, Bool.false_eq_true, if_false, pure, Except.pure,
            Except.ok.injEq] at hrest
          have hcount := edCollect_outer_count act.identifier act.publication_date
            (iterate_all_saes_of_act act) (none, []) (dflt, specials) hfold
          constructor
          · rw [hd] at hcount
            simp only [Option.isSome_some, Option.isSome_none] at hcount
            unfold countDefaultEds
            simp at hcount
            omega
          · intro sc hsc
            rw [← hrest] at hsc
            simp only [← hrest]
            constructor
            · exact List.all_eq_true.mp hall1 sc hsc
            · have h2 := List.all_eq_true.mp hall2 sc hsc
              simpa using h2
  refine ⟨main, ?_⟩
  intro hne eds h
  exact hne (main eds h).1

/-- C3 (witness): the invariants hold on a resolvable act, and an act
without a default directive is rejected. -/
theorem claim3_witness :
    (countDefaultEds exAct3 = 1
      ∧ ∀ sc ∈ exEds3.specials,
          Date.le exEds3.default.from_date sc.2.from_date = true ∧ sc.2.to_date = none)
    ∧ (∀ eds : EnforcementDateSet TRef,
        EnforcementDateSet.from_act exAct3b ≠ Except.ok eds) :=
  ⟨(claim3 exAct3).1 exEds3 (by rfl), (claim3 exAct3b).2 (by decide)⟩

/-! ## Claims C10 and C6: no-op modification passes -/

/-- A subpoint on which the modifier is the identity maps to itself. -/
theorem mapSubpointM_id {Ref : Type} [RefApi Ref] (filt : Option Ref) (f : Modifier Ref)
    (parentRef : Ref) (sp : Subpoint Ref)
    (hf : coveredBy filt (RefApi.atSubpoint parentRef sp.data.identifier) = true →
      f (RefApi.atSubpoint parentRef sp.data.identifier) (.subpoint sp)
        = Except.ok (.subpoint sp, false)) :
    mapSubpointM filt f parentRef sp = Except.ok (sp, false) := by
  unfold mapSubpointM
  cases hc : coveredBy filt (RefApi.atSubpoint parentRef sp.data.identifier) with
  | false => simp [hc, pure, Except.pure]
  | true => simp [hc, hf hc, Bind.bind, Except.bind, expectSubpoint, pure, Except.pure]

/-- A pointwise-identity monadic map is the identity. -/
theorem mapM_pointwise_id {γ : Type} (g : γ → Except String (γ × Bool)) (l : List γ)
    (h : ∀ x ∈ l, g x = Except.ok (x, false)) :
    l.mapM g = Except.ok (l.map fun x => (x, false)) := by
  induction l with
  | nil => simp [List.mapM_nil]; rfl
  | cons x t ih =>
    rw [List.mapM_cons, h x (by simp), ih fun y hy => h y (by simp [hy])]
    simp [Bind.bind, Except.bind, pure, Except.pure]

/-- Mapping the first projection over identity-mapped pairs. -/
theorem map_fst_pairs {γ : Type} (l : List γ) :
    (l.map fun x => (x, false)).map Prod.fst = l := by
  induction l with
  | nil => rfl
  | cons x t ih => simp [ih]

/-- No identity-mapped pair carries a set flag. -/
theorem any_snd_pairs {γ : Type} (l : List γ) :
    (l.map fun x => (x, false)).any Prod.snd = false := by
  induction l with
  | nil => rfl
  | cons x t ih => simp [ih]

/-- `map_fst_pairs` in composed form. -/
theorem map_fst_comp_pairs {γ : Type} (l : List γ) :
    l.map (Prod.fst ∘ fun x => (x, false)) = l := by
  induction l with
  | nil => rfl
  | cons x t ih => simp [ih]

/-- Identity mapping over a subpoint list. -/
theorem mapSubpointsM_id {Ref : Type} [RefApi Ref] (filt : Option Ref) (f : Modifier Ref)
    (parentRef : Ref) (sps : List (Subpoint Ref))
    (hf : ∀ sp ∈ sps,
      coveredBy filt (RefApi.atSubpoint parentRef sp.data.identifier) = true →
      f (RefApi.atSubpoint parentRef sp.data.identifier) (.subpoint sp)
        = Except.ok (.subpoint sp, false)) :
    mapSubpointsM filt f parentRef sps = Except.ok (sps, false) := by
  have hmapped := mapM_pointwise_id (mapSubpointM filt f parentRef) sps
    (fun sp hsp => mapSubpointM_id filt f parentRef sp (hf sp hsp))
  unfold mapSubpointsM
  rw [hmapped]
  simp [Bind.bind, Except.bind, pure, Except.pure, map_fst_pairs sps, any_snd_pairs sps]

/-- A point subtree on which the modifier is the identity maps to
itself. -/
theorem mapPointM_id {Ref : Type} [RefApi Ref] (filt : Option Ref) (cf : Bool)
    (f : Modifier Ref) (parentRef : Ref) (pt : Point Ref)
    (hf : ∀ e ∈ walkPoint parentRef pt, coveredBy filt e.1 = true →
      f e.1 e.2 = Except.ok (e.2, false)) :
    mapPointM filt cf f parentRef pt = Except.ok (pt, false) := by
  obtain ⟨k, dta, ch⟩ := pt
  have hself : coveredBy filt (RefApi.atPoint parentRef dta.identifier) = true →
      f (RefApi.atPoint parentRef dta.identifier) (.point ⟨k, dta, ch⟩)
        = Except.ok (.point ⟨k, dta, ch⟩, false) :=
    hf (RefApi.atPoint parentRef dta.identifier, .point ⟨k, dta, ch⟩)
      (by simp [walkPoint])
  have hsubs : mapSubpointsM filt f (RefApi.atPoint parentRef dta.identifier) (ch.getD [])
      = Except.ok (ch.getD [], false) := by
    refine mapSubpointsM_id filt f _ _ ?_
    intro sp hsp hc
    refine hf (RefApi.atSubpoint (RefApi.atPoint parentRef dta.identifier)
      sp.data.identifier, .subpoint sp) ?_ hc
    simp [walkPoint]
    exact hsp
  unfold mapPointM
  cases hcf : cf <;> cases hc : coveredBy filt (RefApi.atPoint parentRef dta.identifier) <;>
    cases ch with
  | _ => simp_all [Bind.bind, Except.bind, pure, Except.pure, expectPoint, mapSubpointsM]

/-- A paragraph subtree on which the modifier is the identity maps to
itself. -/
theorem mapParagraphM_id {Ref : Type} [RefApi Ref] (filt : Option Ref) (cf : Bool)
    (f : Modifier Ref) (parentRef : Ref) (pg : Paragraph Ref)
    (hf : ∀ e ∈ walkParagraph parentRef pg, coveredBy filt e.1 = true →
      f e.1 e.2 = Except.ok (e.2, false)) :
    mapParagraphM filt cf f parentRef pg = Except.ok (pg, false) := by
  obtain ⟨dta, ch⟩ := pg
  have hself : coveredBy filt (RefApi.atParagraph parentRef dta.identifier) = true →
      f (RefApi.atParagraph parentRef dta.identifier) (.paragraph ⟨dta, ch⟩)
        = Except.ok (.paragraph ⟨dta, ch⟩, false) :=
    hf (RefApi.atParagraph parentRef dta.identifier, .paragraph ⟨dta, ch⟩)
      (by simp [walkParagraph])
  have hpts : ∀ ps, ch = some (ParagraphChildren.points ps) →
      ps.mapM (mapPointM filt cf f (RefApi.atParagraph parentRef dta.identifier))
        = Except.ok (ps.map fun pt => (pt, false)) := by
    intro ps hch
    refine mapM_pointwise_id _ ps ?_
    intro pt hpt
    refine mapPointM_id filt cf f _ pt ?_
    intro e he hc
    refine hf e ?_ hc
    simp [walkParagraph, hch]
    right
    exact ⟨pt, hpt, he⟩
  unfold mapParagraphM
  cases hcf : cf <;> cases hc : coveredBy filt (RefApi.atParagraph parentRef dta.identifier) <;>
    rcases ch with _ | ⟨ps | qb | bac⟩
  all_goals
    simp_all [Bind.bind, Except.bind, pure, Except.pure, expectParagraph, map_fst_pairs,
      any_snd_pairs, map_fst_comp_pairs]

/-- An article subtree on which the modifier is the identity maps to
itself. -/
theorem mapArticleSaesM_id {Ref : Type} [RefApi Ref] (filt : Option Ref) (cf : Bool)
    (f : Modifier Ref) (parentRef : Ref) (a : Article Ref)
    (hf : ∀ e ∈ a.children.flatMap
        (walkParagraph (RefApi.atArticle parentRef a.identifier)),
      coveredBy filt e.1 = true → f e.1 e.2 = Except.ok (e.2, false)) :
    mapArticleSaesM filt cf f parentRef a = Except.ok (a, false) := by
  obtain ⟨aid, titl, ps⟩ := a
  have hmapped := mapM_pointwise_id
    (mapParagraphM filt cf f (RefApi.atArticle parentRef aid)) ps ?_
  · unfold mapArticleSaesM
    dsimp only
    rw [hmapped]
    simp [Bind.bind, Except.bind, pure, Except.pure, map_fst_pairs, any_snd_pairs,
      map_fst_comp_pairs]
  · intro pg hpg
    refine mapParagraphM_id filt cf f _ pg ?_
    intro e he hc
    refine hf e ?_ hc
    simp only [List.mem_flatMap]
    exact ⟨pg, hpg, he⟩

/-- The `map_articles` fold leaves the children reversed-unchanged and
the `children_changed` flag unset when the modifier rebuilds nothing
(existential applied flag). -/
theorem mapArticles_fold_id {Ref : Type} [RefApi Ref] [DecidableEq Ref]
    (aid : String) (modifier : Ref → Article Ref → Except String (Article Ref × Bool))
    (filt : Option Ref) (children : List (ActChild Ref))
    (hm : ∀ c ∈ children, ∀ a : Article Ref, c = ActChild.article a →
      ∃ b, modifier (RefApi.mkArticleRef aid a.identifier) a = Except.ok (a, b)) :
    ∀ acc fl, ∃ fl', children.foldlM (mapArticlesStep aid modifier filt) (acc, false, fl)
      = Except.ok (children.reverse ++ acc, false, fl') := by
  induction children with
  | nil =>
    intro acc fl
    exact ⟨fl, by simp [List.foldlM_nil]; rfl⟩
  | cons c cs ih =>
    intro acc fl
    have ihtail := ih fun x hx a hxa => hm x (by simp [hx]) a hxa
    rw [List.foldlM_cons]
    cases c with
    | structural se =>
      obtain ⟨fl', hfold⟩ := ihtail (ActChild.structural se :: acc) fl
      refine ⟨fl', ?_⟩
      simp only [mapArticlesStep, Bind.bind, Except.bind, pure, Except.pure]
      rw [hfold]
      simp
    | article a =>
      obtain ⟨b, hb⟩ := hm (ActChild.article a) (by simp) a rfl
      cases hc : coveredBy filt (RefApi.mkArticleRef aid a.identifier) with
      | false =>
        obtain ⟨fl', hfold⟩ := ihtail (ActChild.article a :: acc) fl
        refine ⟨fl', ?_⟩
        simp only [mapArticlesStep, hc, Bool.false_eq_true, if_false, Bind.bind,
          Except.bind, pure, Except.pure]
        rw [hfold]
        simp
      | true =>
        obtain ⟨fl', hfold⟩ := ihtail (ActChild.article a :: acc) (fl || b)
        refine ⟨fl', ?_⟩
        have hdec : decide (a ≠ a) = false := by simp
        simp only [mapArticlesStep, hc, if_true, Bind.bind, Except.bind, hb, pure,
          Except.pure, hdec, Bool.or_false, Bool.false_or]
        rw [hfold]
        simp

/-- The `map_articles` fold with a strictly identity modifier: children,
`children_changed` and the applied flag are all preserved. -/
theorem mapArticles_fold_id_false {Ref : Type} [RefApi Ref] [DecidableEq Ref]
    (aid : String) (modifier : Ref → Article Ref → Except String (Article Ref × Bool))
    (filt : Option Ref) (children : List (ActChild Ref))
    (hm : ∀ c ∈ children, ∀ a : Article Ref, c = ActChild.article a →
      modifier (RefApi.mkArticleRef aid a.identifier) a = Except.ok (a, false)) :
    ∀ acc fl, children.foldlM (mapArticlesStep aid modifier filt) (acc, false, fl)
      = Except.ok (children.reverse ++ acc, false, fl) := by
  induction children with
  | nil =>
    intro acc fl
    simp [List.foldlM_nil]
    rfl
  | cons c cs ih =>
    intro acc fl
    have ihtail := ih fun x hx a hxa => hm x (by simp [hx]) a hxa
    rw [List.foldlM_cons]
    cases c with
    | structural se =>
      simp only [mapArticlesStep, Bind.bind, Except.bind, pure, Except.pure]
      rw [ihtail (ActChild.structural se :: acc) fl]
      simp
    | article a =>
      have hb := hm (ActChild.article a) (by simp) a rfl
      cases hc : coveredBy filt (RefApi.mkArticleRef aid a.identifier) with
      | false =>
        simp only [mapArticlesStep, hc, Bool.false_eq_true, if_false, Bind.bind,
          Except.bind, pure, Except.pure]
        rw [ihtail (ActChild.article a :: acc) fl]
        simp
      | true =>
        have hdec : decide (a ≠ a) = false := by simp
        simp only [mapArticlesStep, hc, if_true, Bind.bind, Except.bind, hb, pure,
          Except.pure, hdec, Bool.or_false, Bool.false_or]
        rw [ihtail (ActChild.article a :: acc) fl]
        simp

/-- A `map_saes` pass whose wrapped modifier returns every visited,
covered SAE unchanged with the applied flag unset returns the original
act with the flag unset. -/
theorem map_saes_id {Ref : Type} [RefApi Ref] [DecidableEq Ref] (act : ActWM Ref)
    (f : Modifier Ref) (filt : Option Ref) (cf : Bool)
    (hf : ∀ e ∈ walkAct act, coveredBy filt e.1 = true →
      wmAssert f e.1 e.2 = Except.ok (e.2, false)) :
    act.map_saes f filt cf = Except.ok (act, false) := by
  have harticle : ∀ c ∈ act.children, ∀ a : Article Ref, c = ActChild.article a →
      (fun (_ref : Ref) (a2 : Article Ref) =>
        Article.map_recursive_wm a2 (RefApi.mkActRef act.identifier) f filt cf)
        (@RefApi.mkArticleRef Ref _ act.identifier a.identifier) a
        = Except.ok (a, false) := by
    intro c hcmem a hca
    refine mapArticleSaesM_id filt cf (wmAssert f) (RefApi.mkActRef act.identifier) a ?_
    intro e he hc
    refine hf e ?_ hc
    unfold walkAct
    simp only [List.mem_flatMap]
    refine ⟨c, hcmem, ?_⟩
    rw [hca]
    exact he
  have hfold := mapArticles_fold_id_false act.identifier
    (fun (_ref : Ref) (a2 : Article Ref) =>
      Article.map_recursive_wm a2 (RefApi.mkActRef act.identifier) f filt cf)
    none act.children harticle [] false
  unfold ActWM.map_saes ActWM.map_articles
  rw [hfold]
  simp [Bind.bind, Except.bind, pure, Except.pure]

/-- C10: a modification pass whose article modifier returns its
argument unchanged for every article it is applied to produces the
original act value back through `map_articles` (the
`children_changed` short-circuit), and likewise a `map_saes` pass
whose SAE modifier returns every visited SAE unchanged with the
applied flag unset returns the original act with the flag unset. -/
theorem claim10 {Ref : Type} [RefApi Ref] [DecidableEq Ref] :
    (∀ (act : ActWM Ref) (modifier : Ref → Article Ref → Except String (Article Ref × Bool))
      (filt : Option Ref),
      (∀ r a, ∃ b, modifier r a = Except.ok (a, b)) →
      ∃ b, act.map_articles modifier filt = Except.ok (act, b))
    ∧ (∀ (act : ActWM Ref) (f : Modifier Ref) (filt : Option Ref) (cf : Bool),
      (∀ e ∈ walkAct act, coveredBy filt e.1 = true →
        wmAssert f e.1 e.2 = Except.ok (e.2, false)) →
      act.map_saes f filt cf = Except.ok (act, false)) := by
  constructor
  · intro act modifier filt hm
    obtain ⟨fl', hfold⟩ := mapArticles_fold_id act.identifier modifier filt act.children
      (fun c hc a hca => hm (@RefApi.mkArticleRef Ref _ act.identifier a.identifier) a) [] false
    refine ⟨fl', ?_⟩
    unfold ActWM.map_articles
    rw [hfold]
    simp [Bind.bind, Except.bind, pure, Except.pure]
  · intro act f filt cf hf
    exact map_saes_id act f filt cf hf

/-- C10 (witness): identity passes over a concrete act return the act
itself. -/
theorem claim10_witness :
    (∃ b, exAct1.map_articles (fun _r a => Except.ok (a, false)) none
      = Except.ok (exAct1, b))
    ∧ exAct1.map_saes (fun _r n => Except.ok (n, false)) none false
      = Except.ok (exAct1, false) :=
  ⟨claim10.1 exAct1 (fun _r a => Except.ok (a, false)) none (fun _r a => ⟨false, rfl⟩),
   claim10.2 exAct1 (fun _r n => Except.ok (n, false)) none false (by
     intro e he hc
     rw [show walkAct exAct1 =
       [((({ act := some "T", article := some "1", paragraph := some "1" } : TRef),
         SaeNode.paragraph
           { data :=
             { identifier := some "1", text := some "This is ABC, and ABCD",
               metadata := some
                 { enforcement_date := some { from_date := ⟨2020, 1, 1⟩, to_date := none },
                   last_modified := none } },
             children := none }))] from rfl] at he
     cases List.mem_singleton.mp he
     rfl)⟩

/-- The empty pattern occurs in every text. -/
theorem occursIn_nil (l : List Char) : occursIn [] l = true := by
  cases l <;> simp [occursIn, isPre]

/-- A scan for a pattern that does not occur leaves the text
untouched. -/
theorem replaceAux_id (orig repl l : List Char) (h : occursIn orig l = false) :
    ∀ fuel, replaceAux orig repl fuel l = l := by
  induction l with
  | nil => intro fuel; cases fuel <;> rfl
  | cons c rest ih =>
    intro fuel
    have hsplit : isPre orig (c :: rest) = false ∧ occursIn orig rest = false := by
      have := h
      simp [occursIn] at this
      exact this
    cases fuel with
    | zero => rfl
    | succ fuel =>
      unfold replaceAux
      rw [if_neg]
      · rw [ih hsplit.2 fuel]
      · intro hcontra
        rw [hsplit.1] at hcontra
        exact Bool.false_ne_true hcontra.2

/-- `str.replace` with a pattern that does not occur is the
identity. -/
theorem pyReplace_id (orig repl s : String) (h : occursInStr orig s = false) :
    pyReplace orig repl s = s := by
  have ho : orig.data ≠ [] := by
    intro hnil
    unfold occursInStr at h
    rw [hnil, occursIn_nil] at h
    simp at h
  unfold pyReplace
  rw [if_neg ho, replaceAux_id orig.data repl.data s.data h]

/-- `text_replacer` on an SAE whose fields do not contain the original
text returns the SAE itself and does not set `applied`. -/
theorem text_replacer_id {Ref : Type} (o rp : String) (r : Ref) (n : SaeNode Ref)
    (ht : ∀ t, n.data.text = some t → occursInStr o t = false)
    (hi : ∀ t, n.data.intro = some t → occursInStr o t = false)
    (hw : ∀ t, n.data.wrap_up = some t → occursInStr o t = false) :
    text_replacer o rp r n = Except.ok (n, false) := by
  have htext : n.data.text.map (pyReplace o rp) = n.data.text := by
    cases hx : n.data.text with
    | none => rfl
    | some t => simp [pyReplace_id o rp t (ht t hx)]
  have hintro : n.data.intro.map (pyReplace o rp) = n.data.intro := by
    cases hx : n.data.intro with
    | none => rfl
    | some t => simp [pyReplace_id o rp t (hi t hx)]
  have hwrap : n.data.wrap_up.map (pyReplace o rp) = n.data.wrap_up := by
    cases hx : n.data.wrap_up with
    | none => rfl
    | some t => simp [pyReplace_id o rp t (hw t hx)]
  unfold text_replacer
  simp only [htext, hintro, hwrap]
  simp [pure, Except.pure]

/-- C6: a text amendment whose original text occurs in no
`text`/`intro`/`wrap_up` field of any working SAE covered by its
position applies without an exception, leaves the act value unchanged,
ends with `applied = false` (so `apply_all` records a warning for it),
and the remaining appliers still run on the same act. -/
theorem claim6 {Ref : Type} [RefApi Ref] [DecidableEq Ref] (m : SemanticData Ref)
    (src : SaeNode Ref) (d : Date) (pos : Ref) (o rp : String) (act : ActWM Ref)
    (hno : ∀ e ∈ walkAct act, coveredBy (some pos) e.1 = true →
      e.2.data.metadata.isSome = true
      ∧ (∀ t, e.2.data.text = some t → occursInStr o t = false)
      ∧ (∀ t, e.2.data.intro = some t → occursInStr o t = false)
      ∧ (∀ t, e.2.data.wrap_up = some t → occursInStr o t = false)) :
    (Applier.textReplacement m src d pos o rp).apply act = Except.ok (act, false)
    ∧ ∀ (rest : List (Applier Ref)) (res : ActWM Ref × List (SemanticData Ref)),
        applyAllAux rest act = Except.ok res →
        applyAllAux (Applier.textReplacement m src d pos o rp :: rest) act
          = Except.ok (res.1, m :: res.2) := by
  have happly : (Applier.textReplacement m src d pos o rp).apply act
      = Except.ok (act, false) := by
    show act.map_saes (text_replacer o rp) (some pos) false = Except.ok (act, false)
    refine map_saes_id act (text_replacer o rp) (some pos) false ?_
    intro e he hc
    obtain ⟨hwm, ht, hi, hw⟩ := hno e he hc
    unfold wmAssert
    rw [if_pos hwm]
    exact text_replacer_id o rp e.1 e.2 ht hi hw
  refine ⟨happly, ?_⟩
  intro rest res hrest
  show (do
    let (act1, applied) ← (Applier.textReplacement m src d pos o rp).apply act
    let (act2, warns) ← applyAllAux rest act1
    pure (act2, (if applied then [] else
      [(Applier.textReplacement m src d pos o rp).modification]) ++ warns))
    = Except.ok (res.1, m :: res.2)
  rw [happly]
  simp only [Bind.bind, Except.bind]
  rw [hrest]
  simp [pure, Except.pure, Applier.modification]

/-- C6 (witness): an amendment looking for "XYZ" misses the worked
example act entirely: the act is unchanged, and `apply_all`'s loop
records exactly the one warning. -/
theorem claim6_witness :
    (occursInStr "XYZ" "This is ABC, and ABCD" = false)
    ∧ (Applier.textReplacement (SemanticData.textAmendment exPos1 "XYZ" "Q") exSrcSae
        ⟨2021, 1, 1⟩ exPos1 "XYZ" "Q").apply exAct1 = Except.ok (exAct1, false)
    ∧ applyAllAux [Applier.textReplacement (SemanticData.textAmendment exPos1 "XYZ" "Q")
        exSrcSae ⟨2021, 1, 1⟩ exPos1 "XYZ" "Q"] exAct1
        = Except.ok (exAct1, [SemanticData.textAmendment exPos1 "XYZ" "Q"]) := by
  have h6 := claim6 (SemanticData.textAmendment exPos1 "XYZ" "Q") exSrcSae
    ⟨2021, 1, 1⟩ exPos1 "XYZ" "Q" exAct1 (by
      intro e he hc
      rw [show walkAct exAct1 =
        [((({ act := some "T", article := some "1", paragraph := some "1" } : TRef),
          SaeNode.paragraph
            { data :=
              { identifier := some "1", text := some "This is ABC, and ABCD",
                metadata := some
                  { enforcement_date := some { from_date := ⟨2020, 1, 1⟩, to_date := none },
                    last_modified := none } },
              children := none }))] from rfl] at he
      cases List.mem_singleton.mp he
      refine ⟨rfl, ?_, ?_, ?_⟩
      · intro t htx
        cases htx
        rfl
      · intro t htx
        cases htx
      · intro t htx
        cases htx)
  exact ⟨by decide, h6.1, h6.2 [] (exAct1, []) rfl⟩

/-! ## Claim C9: SAE-level repeal preserves siblings -/

/-- A pointwise-characterized monadic map. -/
theorem mapM_pointwise_spec {γ : Type} (g : γ → Except String (γ × Bool)) (spec : γ → γ)
    (l : List γ) (h : ∀ x ∈ l, ∃ b, g x = Except.ok (spec x, b)) :
    ∃ rs : List (γ × Bool), l.mapM g = Except.ok rs ∧ rs.map Prod.fst = l.map spec := by
  induction l with
  | nil => exact ⟨[], by simp [List.mapM_nil]; rfl, by simp⟩
  | cons x t ih =>
    obtain ⟨b, hb⟩ := h x (by simp)
    obtain ⟨rs, hrs, hfst⟩ := ih fun y hy => h y (by simp [hy])
    refine ⟨(spec x, b) :: rs, ?_, by simp [hfst]⟩
    rw [List.mapM_cons, hb, hrs]
    simp [Bind.bind, Except.bind, pure, Except.pure]

/-- One repeal step on a subpoint is its spec. -/
theorem mapSubpointM_repeal {Ref : Type} [RefApi Ref] (filt : Option Ref) (d : Date)
    (parentRef : Ref) (sp : Subpoint Ref)
    (h : coveredBy filt (RefApi.atSubpoint parentRef sp.data.identifier) = true →
      ∃ md ed, sp.data.metadata = some md ∧ md.enforcement_date = some ed) :
    ∃ b, mapSubpointM filt (wmAssert (sae_repealer d)) parentRef sp
      = Except.ok (repealSpecSubpoint filt d parentRef sp, b) := by
  cases hc : coveredBy filt (RefApi.atSubpoint parentRef sp.data.identifier) with
  | false =>
    refine ⟨false, ?_⟩
    unfold mapSubpointM repealSpecSubpoint
    simp [hc, pure, Except.pure]
  | true =>
    obtain ⟨md, ed, hmd, hed⟩ := h hc
    refine ⟨true, ?_⟩
    unfold mapSubpointM repealSpecSubpoint
    simp only [hc, if_true]
    unfold wmAssert sae_repealer create_new_metadata
    simp [SaeNode.data, hmd, hed, Bind.bind, Except.bind, pure, Except.pure,
      expectSubpoint, blankSaeData, blankFromDate, throw, throwThe]

/-- A repeal pass over a point subtree is its spec (`map_saes` runs
with `children_first = false`). -/
theorem mapPointM_repeal {Ref : Type} [RefApi Ref] (filt : Option Ref) (d : Date)
    (parentRef : Ref) (pt : Point Ref)
    (h : ∀ e ∈ walkPoint parentRef pt, coveredBy filt e.1 = true →
      ∃ md ed, e.2.data.metadata = some md ∧ md.enforcement_date = some ed) :
    ∃ b, mapPointM filt false (wmAssert (sae_repealer d)) parentRef pt
      = Except.ok (repealSpecPoint filt d parentRef pt, b) := by
  obtain ⟨k, dta, ch⟩ := pt
  have hsubs : ∀ sps, ch = some sps →
      ∃ rs : List (Subpoint Ref × Bool),
        sps.mapM (mapSubpointM filt (wmAssert (sae_repealer d))
          (RefApi.atPoint parentRef dta.identifier)) = Except.ok rs
        ∧ rs.map Prod.fst
          = sps.map (repealSpecSubpoint filt d (RefApi.atPoint parentRef dta.identifier)) := by
    intro sps hch
    refine mapM_pointwise_spec _ _ sps ?_
    intro sp hsp
    refine mapSubpointM_repeal filt d _ sp ?_
    intro hc
    refine h (RefApi.atSubpoint (RefApi.atPoint parentRef dta.identifier)
      sp.data.identifier, .subpoint sp) ?_ hc
    simp [walkPoint, hch]
    exact hsp
  cases hc : coveredBy filt (RefApi.atPoint parentRef dta.identifier) with
  | true =>
    obtain ⟨md, ed, hmd, hed⟩ :=
      h (RefApi.atPoint parentRef dta.identifier, .point ⟨k, dta, ch⟩)
        (by simp [walkPoint]) hc
    simp only [SaeNode.data] at hmd
    refine ⟨true, ?_⟩
    unfold mapPointM repealSpecPoint
    simp only [hc, if_true]
    unfold wmAssert sae_repealer create_new_metadata
    simp [SaeNode.data, hmd, hed, Bind.bind, Except.bind, pure, Except.pure,
      expectPoint, blankSaeData, blankFromDate]
  | false =>
    cases ch with
    | none =>
      refine ⟨false, ?_⟩
      unfold mapPointM repealSpecPoint
      simp [hc, Bind.bind, Except.bind, pure, Except.pure]
    | some sps =>
      obtain ⟨rs, hrs, hfst⟩ := hsubs sps rfl
      refine ⟨rs.any Prod.snd, ?_⟩
      unfold mapPointM repealSpecPoint
      simp only [hc, Bool.false_eq_true, if_false]
      unfold mapSubpointsM
      have hrs2 : List.mapM.loop
          (mapSubpointM filt (wmAssert (sae_repealer d))
            (RefApi.atPoint parentRef dta.identifier)) sps []
          = Except.ok rs := hrs
      simp [Bind.bind, Except.bind, pure, Except.pure, hrs2, hrs, hfst]

/-- A repeal pass over a paragraph subtree is its spec. -/
theorem mapParagraphM_repeal {Ref : Type} [RefApi Ref] (filt : Option Ref) (d : Date)
    (parentRef : Ref) (pg : Paragraph Ref)
    (h : ∀ e ∈ walkParagraph parentRef pg, coveredBy filt e.1 = true →
      ∃ md ed, e.2.data.metadata = some md ∧ md.enforcement_date = some ed) :
    ∃ b, mapParagraphM filt false (wmAssert (sae_repealer d)) parentRef pg
      = Except.ok (repealSpecParagraph filt d parentRef pg, b) := by
  obtain ⟨dta, ch⟩ := pg
  have hpts : ∀ ps, ch = some (ParagraphChildren.points ps) →
      ∃ rs : List (Point Ref × Bool),
        ps.mapM (mapPointM filt false (wmAssert (sae_repealer d))
          (RefApi.atParagraph parentRef dta.identifier)) = Except.ok rs
        ∧ rs.map Prod.fst
          = ps.map (repealSpecPoint filt d (RefApi.atParagraph parentRef dta.identifier)) := by
    intro ps hch
    refine mapM_pointwise_spec _ _ ps ?_
    intro pt hpt
    refine mapPointM_repeal filt d _ pt ?_
    intro e he hc
    refine h e ?_ hc
    simp [walkParagraph, hch]
    right
    exact ⟨pt, hpt, he⟩
  cases hc : coveredBy filt (RefApi.atParagraph parentRef dta.identifier) with
  | true =>
    obtain ⟨md, ed, hmd, hed⟩ :=
      h (RefApi.atParagraph parentRef dta.identifier, .paragraph ⟨dta, ch⟩)
        (by simp [walkParagraph]) hc
    simp only [SaeNode.data] at hmd
    refine ⟨true, ?_⟩
    unfold mapParagraphM repealSpecParagraph
    simp only [hc, if_true]
    unfold wmAssert sae_repealer create_new_metadata
    simp [SaeNode.data, hmd, hed, Bind.bind, Except.bind, pure, Except.pure,
      expectParagraph, blankSaeData, blankFromDate]
  | false =>
    rcases ch with _ | ⟨ps | qb | bac⟩
    · refine ⟨false, ?_⟩
      unfold mapParagraphM repealSpecParagraph
      simp [hc, Bind.bind, Except.bind, pure, Except.pure]
    · obtain ⟨rs, hrs, hfst⟩ := hpts ps rfl
      refine ⟨rs.any Prod.snd, ?_⟩
      unfold mapParagraphM repealSpecParagraph
      simp only [hc, Bool.false_eq_true, if_false]
      have hrs2 : List.mapM.loop
          (mapPointM filt false (wmAssert (sae_repealer d))
            (RefApi.atParagraph parentRef dta.identifier)) ps []
          = Except.ok rs := hrs
      simp [Bind.bind, Except.bind, pure, Except.pure, hrs2, hrs, hfst]
    · refine ⟨false, ?_⟩
      unfold mapParagraphM repealSpecParagraph
      simp [hc, Bind.bind, Except.bind, pure, Except.pure]
    · refine ⟨false, ?_⟩
      unfold mapParagraphM repealSpecParagraph
      simp [hc, Bind.bind, Except.bind, pure, Except.pure]

/-- A repeal pass over an article is its spec. -/
theorem mapArticleSaesM_repeal {Ref : Type} [RefApi Ref] (filt : Option Ref) (d : Date)
    (parentRef : Ref) (a : Article Ref)
    (h : ∀ e ∈ a.children.flatMap
        (walkParagraph (RefApi.atArticle parentRef a.identifier)),
      coveredBy filt e.1 = true →
      ∃ md ed, e.2.data.metadata = some md ∧ md.enforcement_date = some ed) :
    ∃ b, mapArticleSaesM filt false (wmAssert (sae_repealer d)) parentRef a
      = Except.ok (repealSpecArticle filt d parentRef a, b) := by
  obtain ⟨aid, titl, ps⟩ := a
  have hpoint : ∀ pg ∈ ps, ∃ b,
      mapParagraphM filt false (wmAssert (sae_repealer d)) (RefApi.atArticle parentRef aid) pg
        = Except.ok (repealSpecParagraph filt d (RefApi.atArticle parentRef aid) pg, b) := by
    intro pg hpg
    refine mapParagraphM_repeal filt d _ pg ?_
    intro e he hc
    refine h e ?_ hc
    simp only [List.mem_flatMap]
    exact ⟨pg, hpg, he⟩
  obtain ⟨rs, hrs, hfst⟩ := mapM_pointwise_spec
    (mapParagraphM filt false (wmAssert (sae_repealer d)) (RefApi.atArticle parentRef aid))
    (repealSpecParagraph filt d (RefApi.atArticle parentRef aid)) ps hpoint
  refine ⟨rs.any Prod.snd, ?_⟩
  unfold mapArticleSaesM repealSpecArticle
  dsimp only
  have hrs2 : List.mapM.loop
      (mapParagraphM filt false (wmAssert (sae_repealer d))
        (RefApi.atArticle parentRef aid)) ps []
      = Except.ok rs := hrs
  simp [Bind.bind, Except.bind, pure, Except.pure, hrs2, hrs, hfst]

/-- The `map_articles` fold with a spec-characterized modifier. -/
theorem mapArticles_fold_spec {Ref : Type} [RefApi Ref] [DecidableEq Ref]
    (aid : String) (modifier : Ref → Article Ref → Except String (Article Ref × Bool))
    (specA : Article Ref → Article Ref) (children : List (ActChild Ref))
    (hm : ∀ c ∈ children, ∀ a : Article Ref, c = ActChild.article a →
      ∃ b, modifier (@RefApi.mkArticleRef Ref _ aid a.identifier) a
        = Except.ok (specA a, b)) :
    ∀ acc chg fl, ∃ chg2 fl2,
      children.foldlM (mapArticlesStep aid modifier none) (acc, chg, fl)
        = Except.ok ((children.map (specChild specA)).reverse ++ acc, chg || chg2, fl2)
      ∧ (chg2 = false → children.map (specChild specA) = children) := by
  induction children with
  | nil =>
    intro acc chg fl
    refine ⟨false, fl, ?_, fun _ => rfl⟩
    simp [List.foldlM_nil]
    rfl
  | cons c cs ih =>
    intro acc chg fl
    have ihtail := ih fun x hx a hxa => hm x (by simp [hx]) a hxa
    rw [List.foldlM_cons]
    cases c with
    | structural se =>
      obtain ⟨chg2, fl2, hfold, himp⟩ := ihtail (ActChild.structural se :: acc) chg fl
      refine ⟨chg2, fl2, ?_, ?_⟩
      · simp only [mapArticlesStep, Bind.bind, Except.bind, pure, Except.pure]
        rw [hfold]
        simp [specChild]
      · intro hch
        simp [specChild, himp hch]
    | article a =>
      obtain ⟨b, hb⟩ := hm (ActChild.article a) (by simp) a rfl
      obtain ⟨chg2, fl2, hfold, himp⟩ :=
        ihtail (ActChild.article (specA a) :: acc) (chg || decide (specA a ≠ a)) (fl || b)
      refine ⟨decide (specA a ≠ a) || chg2, fl2, ?_, ?_⟩
      · simp only [mapArticlesStep, coveredBy, if_true, Bind.bind, Except.bind, hb, pure,
          Except.pure]
        rw [hfold]
        simp [specChild, Bool.or_assoc]
      · intro hch
        have hd : decide (specA a ≠ a) = false := by
          cases hdd : decide (specA a ≠ a)
          · rfl
          · rw [hdd] at hch; simp at hch
        have hc2 : chg2 = false := by
          cases hcc : chg2
          · rfl
          · rw [hcc] at hch; simp at hch
        have ha : specA a = a := by
          simpa using hd
        simp [specChild, ha, himp hc2]

/-- `map_articles` without a filter and with a spec-characterized
modifier rebuilds the act according to the spec (also when the
`children_changed` short-circuit returns the original act). -/
theorem map_articles_spec {Ref : Type} [RefApi Ref] [DecidableEq Ref] (act : ActWM Ref)
    (modifier : Ref → Article Ref → Except String (Article Ref × Bool))
    (specA : Article Ref → Article Ref)
    (hm : ∀ c ∈ act.children, ∀ a : Article Ref, c = ActChild.article a →
      ∃ b, modifier (@RefApi.mkArticleRef Ref _ act.identifier a.identifier) a
        = Except.ok (specA a, b)) :
    ∃ b, act.map_articles modifier none
      = Except.ok ({ act with children := act.children.map (specChild specA) }, b) := by
  obtain ⟨chg2, fl2, hfold, himp⟩ :=
    mapArticles_fold_spec act.identifier modifier specA act.children hm [] false false
  refine ⟨fl2, ?_⟩
  unfold ActWM.map_articles
  rw [hfold]
  cases hchg : chg2 with
  | true =>
    simp [Bind.bind, Except.bind, pure, Except.pure]
  | false =>
    rw [himp hchg]
    simp [Bind.bind, Except.bind, pure, Except.pure]

/-- Blanking keeps the identifier. -/
theorem repealSpecSubpoint_identifier {Ref : Type} [RefApi Ref] (filt : Option Ref)
    (dd : Date) (r : Ref) (sp : Subpoint Ref) :
    (repealSpecSubpoint filt dd r sp).data.identifier = sp.data.identifier := by
  unfold repealSpecSubpoint
  cases hc : coveredBy filt (RefApi.atSubpoint r sp.data.identifier) <;>
    simp [hc, blankSaeData]

/-- Blanking keeps the identifier at point level. -/
theorem repealSpecPoint_identifier {Ref : Type} [RefApi Ref] (filt : Option Ref)
    (dd : Date) (r : Ref) (pt : Point Ref) :
    (repealSpecPoint filt dd r pt).data.identifier = pt.data.identifier := by
  unfold repealSpecPoint
  cases hc : coveredBy filt (RefApi.atPoint r pt.data.identifier) <;>
    simp [hc, blankSaeData]

/-- Blanking keeps the identifier at paragraph level. -/
theorem repealSpecParagraph_identifier {Ref : Type} [RefApi Ref] (filt : Option Ref)
    (dd : Date) (r : Ref) (p : Paragraph Ref) :
    (repealSpecParagraph filt dd r p).data.identifier = p.data.identifier := by
  unfold repealSpecParagraph
  cases hc : coveredBy filt (RefApi.atParagraph r p.data.identifier) <;>
    simp [hc, blankSaeData]

/-- C9: an SAE-level repeal (a `Repeal` without text whose position is
not article-kind) rewrites the act exactly to its blanking spec; the
spec preserves the identifier frame of the act (structural headings,
article identifiers and each article's ordered paragraph
identifiers), preserves sibling identifier lists below any uncovered
node, and every blanked SAE keeps its identifier while its text is
the not-enforced marker and its annotations are cleared. -/
theorem claim9 {Ref : Type} [RefApi Ref] [DecidableEq Ref] (act : ActWM Ref) (pos : Ref)
    (src : SaeNode Ref) (d : Date)
    (hkind : RefApi.kind pos ≠ some RefKind.article)
    (hcov : ∀ e ∈ walkAct act, coveredBy (some pos) e.1 = true →
      ∃ md ed, e.2.data.metadata = some md ∧ md.enforcement_date = some ed) :
    (∃ b, (Applier.repealApplier (SemanticData.repeal (AnyRef.ref pos) none) src d).apply act
      = Except.ok (repealSpecAct (some pos) d act, b))
    ∧ actFrame (repealSpecAct (some pos) d act) = actFrame act
    ∧ (repealSpecAct (some pos) d act).children.length = act.children.length
    ∧ (∀ (filt : Option Ref) (dd : Date) (r : Ref) (p : Paragraph Ref),
        coveredBy filt (RefApi.atParagraph r p.data.identifier) = false →
        paragraphPointIds (repealSpecParagraph filt dd r p) = paragraphPointIds p)
    ∧ (∀ (filt : Option Ref) (dd : Date) (r : Ref) (pt : Point Ref),
        coveredBy filt (RefApi.atPoint r pt.data.identifier) = false →
        pointSubIds (repealSpecPoint filt dd r pt) = pointSubIds pt)
    ∧ (∀ (dd : Date) (dta : SaeData Ref),
        (blankSaeData dd dta).identifier = dta.identifier
        ∧ (blankSaeData dd dta).text = some NOT_ENFORCED_TEXT
        ∧ (blankSaeData dd dta).semantic_data = some []
        ∧ (blankSaeData dd dta).outgoing_references = some []) := by
  refine ⟨?_, ?_, ?_, ?_, ?_, ?_⟩
  · -- the apply path: not article-kind, hence map_saes with the repealer
    have hm : ∀ c ∈ act.children, ∀ a : Article Ref, c = ActChild.article a →
        ∃ b, (fun (_ref : Ref) (a2 : Article Ref) =>
          Article.map_recursive_wm a2 (RefApi.mkActRef act.identifier)
            (sae_repealer d) (some pos) false)
          (@RefApi.mkArticleRef Ref _ act.identifier a.identifier) a
          = Except.ok
            (repealSpecArticle (some pos) d (RefApi.mkActRef act.identifier) a, b) := by
      intro c hcm a hca
      refine mapArticleSaesM_repeal (some pos) d (RefApi.mkActRef act.identifier) a ?_
      intro e he hc
      refine hcov e ?_ hc
      unfold walkAct
      simp only [List.mem_flatMap]
      refine ⟨c, hcm, ?_⟩
      rw [hca]
      exact he
    obtain ⟨b, hb⟩ := map_articles_spec act
      (fun (_ref : Ref) (a2 : Article Ref) =>
        Article.map_recursive_wm a2 (RefApi.mkActRef act.identifier)
          (sae_repealer d) (some pos) false)
      (repealSpecArticle (some pos) d (RefApi.mkActRef act.identifier)) hm
    refine ⟨b, ?_⟩
    show repealApply (SemanticData.repeal (AnyRef.ref pos) none) d act = _
    unfold repealApply
    dsimp only
    rcases hk : RefApi.kind pos with _ | k
    · exact hb
    · cases k with
      | article => exact absurd hk hkind
      | paragraph => exact hb
      | point => exact hb
      | subpoint => exact hb
  · unfold actFrame repealSpecAct
    dsimp only
    rw [List.map_map]
    refine List.map_congr_left ?_
    intro c hcm
    cases c with
    | structural se => rfl
    | article a =>
      simp only [Function.comp, specChild]
      unfold repealSpecArticle
      dsimp only
      rw [List.map_map]
      refine congrArg Sum.inr (congrArg (Prod.mk a.identifier) ?_)
      refine List.map_congr_left ?_
      intro p _hp
      simp [Function.comp, repealSpecParagraph_identifier]
  · unfold repealSpecAct
    simp
  · intro filt dd r p hcb
    unfold repealSpecParagraph paragraphPointIds
    simp only [hcb, Bool.false_eq_true, if_false]
    obtain ⟨dta, ch⟩ := p
    rcases ch with _ | ⟨ps | qb | bac⟩ <;> simp [List.map_map]
    intro pt _hpt
    exact repealSpecPoint_identifier filt dd (RefApi.atParagraph r dta.identifier) pt
  · intro filt dd r pt hcb
    unfold repealSpecPoint pointSubIds
    simp only [hcb, Bool.false_eq_true, if_false]
    obtain ⟨k, dta, ch⟩ := pt
    rcases ch with _ | sps <;> simp [List.map_map]
    intro sp _hsp
    exact repealSpecSubpoint_identifier filt dd (RefApi.atPoint r dta.identifier) sp
  · intro dd dta
    exact ⟨rfl, rfl, rfl, rfl⟩

/-- C9 (witness): repealing point (b) of the witness act preserves
the sibling frame. -/
theorem claim9_witness :
    (RefApi.kind exPos9 ≠ some RefKind.article)
    ∧ (∃ b, (Applier.repealApplier (SemanticData.repeal (AnyRef.ref exPos9) none) exSrcSae
        ⟨2021, 1, 1⟩).apply exAct9
        = Except.ok (repealSpecAct (some exPos9) ⟨2021, 1, 1⟩ exAct9, b))
    ∧ actFrame (repealSpecAct (some exPos9) ⟨2021, 1, 1⟩ exAct9) = actFrame exAct9 := by
  have h9 := claim9 exAct9 exPos9 exSrcSae ⟨2021, 1, 1⟩ (by decide) (by
    intro e he hc
    rw [show walkAct exAct9 =
      [(({ act := some "T9", article := some "1", paragraph := some "1" } : TRef),
        SaeNode.paragraph exPara9),
       (({ act := some "T9", article := some "1", paragraph := some "1",
           point := some "a" } : TRef), SaeNode.point exPointA),
       (({ act := some "T9", article := some "1", paragraph := some "1",
           point := some "b" } : TRef), SaeNode.point exPointB)] from rfl] at he
    rcases List.mem_cons.mp he with rfl | he
    · exact absurd hc (by decide)
    rcases List.mem_cons.mp he with rfl | he
    · exact absurd hc (by decide)
    rcases List.mem_cons.mp he with rfl | he
    · exact ⟨exMd9, exCed9, rfl, rfl⟩
    · exact absurd he (List.not_mem_nil e))
  exact ⟨by decide, h9.1, h9.2.1⟩

/-! ## C8: the extractor emits a synthetic self-repeal per directive -/

/-- Membership in a bucket survives a `defaultdict` append. -/
theorem bucketsAdd_mem_mono {Ref : Type} (b : AmendmentBuckets Ref) (k2 : String)
    (v : SaeNode Ref × SemanticData Ref) (k : String)
    (x : SaeNode Ref × SemanticData Ref) (hx : x ∈ b k) : x ∈ bucketsAdd b k2 v k := by
  unfold bucketsAdd
  by_cases h : k = k2
  · rw [if_pos h]
    exact List.mem_append_left _ (h ▸ hx)
  · rw [if_neg h]
    exact hx

/-- The appended value is in its bucket. -/
theorem bucketsAdd_mem_self {Ref : Type} (b : AmendmentBuckets Ref) (k : String)
    (v : SaeNode Ref × SemanticData Ref) : v ∈ bucketsAdd b k v k := by
  unfold bucketsAdd
  rw [if_pos rfl]
  exact List.mem_append_right _ (List.mem_singleton.mpr rfl)

/-- A `defaultdict` append never loses repeals from any bucket. -/
theorem countRepeals_bucketsAdd_ge {Ref : Type} (b : AmendmentBuckets Ref)
    (k k2 : String) (v : SaeNode Ref × SemanticData Ref) :
    countRepeals (b k2) ≤ countRepeals (bucketsAdd b k v k2) := by
  unfold bucketsAdd
  by_cases h : k2 = k
  · rw [if_pos h, h]
    simp only [countRepeals, List.countP_append]
    exact Nat.le_add_right _ _
  · rw [if_neg h]

/-- Appending a repeal to a bucket increments its repeal count. -/
theorem countRepeals_bucketsAdd_repeal {Ref : Type} (b : AmendmentBuckets Ref)
    (k : String) (sae : SaeNode Ref) (p : AnyRef Ref) (t : Option String) :
    countRepeals (bucketsAdd b k (sae, SemanticData.repeal p t) k)
      = countRepeals (b k) + 1 := by
  unfold bucketsAdd
  rw [if_pos rfl]
  simp [countRepeals, List.countP_append, List.countP_cons]

/-- One directive step of the walker: buckets only grow, the repeal
count of the own bucket grows by one per positioned directive, and a
positioned directive lands in the target bucket together with a
synthetic self-repeal in the own bucket. -/
theorem dirStep_props {Ref : Type} [RefApi Ref] (aid : String) (reference : Ref)
    (sae : SaeNode Ref) (b : AmendmentBuckets Ref) (el : SemanticData Ref)
    (b2 : AmendmentBuckets Ref) (h : dirStep aid reference sae b el = Except.ok b2) :
    (∀ k x, x ∈ b k → x ∈ b2 k)
    ∧ countRepeals (b aid) + (if (nonEdPosition el).isSome then 1 else 0)
        ≤ countRepeals (b2 aid)
    ∧ ∀ pos target, nonEdPosition el = some pos → anyRefAct pos = some target →
        (sae, el) ∈ b2 target
        ∧ (sae, SemanticData.repeal (AnyRef.ref reference) none) ∈ b2 aid := by
  unfold dirStep at h
  rcases hp : nonEdPosition el with _ | pos
  · rw [hp] at h
    dsimp only at h
    simp only [pure, Except.pure, Except.ok.injEq] at h
    subst h
    refine ⟨fun k x hx => hx, by simp, ?_⟩
    intro pos target hpos _ht
    exact Option.noConfusion hpos
  · rw [hp] at h
    dsimp only at h
    rcases ht : anyRefAct pos with _ | target
    · rw [ht] at h
      dsimp only at h
      simp [throw, throwThe] at h
    · rw [ht] at h
      dsimp only at h
      simp only [pure, Except.pure, Except.ok.injEq] at h
      subst h
      refine ⟨?_, ?_, ?_⟩
      · intro k x hx
        exact bucketsAdd_mem_mono _ _ _ _ _ (bucketsAdd_mem_mono _ _ _ _ _ hx)
      · have h1 : (if (some pos : Option (AnyRef Ref)).isSome then (1 : Nat) else 0) = 1 := rfl
        rw [h1, countRepeals_bucketsAdd_repeal]
        have hge := countRepeals_bucketsAdd_ge b target aid (sae, el)
        omega
      · intro pos2 target2 hpos2 ht2
        obtain rfl := Option.some.inj hpos2
        rw [ht] at ht2
        obtain rfl := Option.some.inj ht2
        exact ⟨bucketsAdd_mem_mono _ _ _ _ _ (bucketsAdd_mem_self b target (sae, el)),
          bucketsAdd_mem_self _ aid _⟩

/-- The directive loop of the walker: buckets only grow, the own
bucket gains one repeal per positioned directive, and every positioned
directive is delivered to its target bucket together with a synthetic
self-repeal. -/
theorem dirFold_props {Ref : Type} [RefApi Ref] (aid : String) (reference : Ref)
    (sae : SaeNode Ref) :
    ∀ (sd : List (SemanticData Ref)) (b b2 : AmendmentBuckets Ref),
      sd.foldlM (dirStep aid reference sae) b = Except.ok b2 →
      (∀ k x, x ∈ b k → x ∈ b2 k)
      ∧ countRepeals (b aid) + sd.countP (fun el => (nonEdPosition el).isSome)
          ≤ countRepeals (b2 aid)
      ∧ ∀ el ∈ sd, ∀ pos target, nonEdPosition el = some pos →
          anyRefAct pos = some target →
          (sae, el) ∈ b2 target
          ∧ (sae, SemanticData.repeal (AnyRef.ref reference) none) ∈ b2 aid := by
  intro sd
  induction sd with
  | nil =>
    intro b b2 h
    simp only [List.foldlM_nil] at h
    simp only [pure, Except.pure, Except.ok.injEq] at h
    subst h
    refine ⟨fun k x hx => hx, by simp, ?_⟩
    intro el hel
    exact absurd hel (List.not_mem_nil el)
  | cons el sd ih =>
    intro b b2 h
    rw [List.foldlM_cons] at h
    obtain ⟨b1, h1, h2⟩ := except_bind_ok _ _ _ h
    obtain ⟨mono0, count0, mem0⟩ := dirStep_props aid reference sae b el b1 h1
    obtain ⟨mono1, count1, mem1⟩ := ih b1 b2 h2
    refine ⟨fun k x hx => mono1 k x (mono0 k x hx), ?_, ?_⟩
    · rw [List.countP_cons]
      cases hb : (nonEdPosition el).isSome <;> simp [hb] at count0 ⊢ <;> omega
    · intro el2 hel2 pos target hpos ht
      rcases List.mem_cons.mp hel2 with rfl | hel2
      · obtain ⟨hm1, hm2⟩ := mem0 pos target hpos ht
        exact ⟨mono1 target _ hm1, mono1 aid _ hm2⟩
      · exact mem1 el2 hel2 pos target hpos ht

/-- One SAE step of the walker: buckets only grow, the own bucket
gains at least `entryDirCount` repeals, and an in-force SAE delivers
each of its positioned directives together with the synthetic
self-repeal. -/
theorem saeWalkerStep_props {Ref : Type} [RefApi Ref] (at_date : Date) (aid : String)
    (b : AmendmentBuckets Ref) (e : Ref × SaeNode Ref) (b2 : AmendmentBuckets Ref)
    (h : saeWalkerStep at_date aid b e = Except.ok b2) :
    (∀ k x, x ∈ b k → x ∈ b2 k)
    ∧ countRepeals (b aid) + entryDirCount at_date e ≤ countRepeals (b2 aid)
    ∧ ∀ sd, e.2.data.semantic_data = some sd →
        ∀ md, e.2.data.metadata = some md →
        ∀ ed, md.enforcement_date = some ed →
        ed.is_in_force_at_date at_date = true →
        ∀ el ∈ sd, ∀ pos target, nonEdPosition el = some pos →
          anyRefAct pos = some target →
          (e.2, el) ∈ b2 target
          ∧ (e.2, SemanticData.repeal (AnyRef.ref e.1) none) ∈ b2 aid := by
  unfold saeWalkerStep at h
  dsimp only at h
  rcases hmd : e.2.data.metadata with _ | md
  · rw [hmd] at h
    dsimp only at h
    simp [throw, throwThe] at h
  · rw [hmd] at h
    dsimp only at h
    rcases hsd : e.2.data.semantic_data with _ | sd
    · rw [hsd] at h
      dsimp only at h
      simp only [pure, Except.pure, Except.ok.injEq] at h
      subst h
      refine ⟨fun k x hx => hx, ?_, ?_⟩
      · simp [entryDirCount, hsd]
      · intro sd2 hsd2
        exact Option.noConfusion hsd2
    · rw [hsd] at h
      dsimp only at h
      rcases hed : md.enforcement_date with _ | ed
      · rw [hed] at h
        dsimp only at h
        simp [throw, throwThe] at h
      · rw [hed] at h
        dsimp only at h
        by_cases hf : ed.is_in_force_at_date at_date = true
        · rw [if_neg (by simp [hf])] at h
          obtain ⟨mono, count, mem⟩ := dirFold_props aid e.1 e.2 sd b b2 h
          refine ⟨mono, ?_, ?_⟩
          · have hc : entryDirCount at_date e
                = sd.countP (fun el => (nonEdPosition el).isSome) := by
              simp [entryDirCount, hsd, hmd, hed, hf]
            rw [hc]
            exact count
          · intro sd2 hsd2 md2 _hmd2 ed2 _hed2 _hforce el hel pos target hpos ht
            obtain rfl := Option.some.inj hsd2
            exact mem el hel pos target hpos ht
        · have hf0 : ed.is_in_force_at_date at_date = false := by
            revert hf
            cases ed.is_in_force_at_date at_date <;> simp
          rw [if_pos (by simp [hf0])] at h
          simp only [pure, Except.pure, Except.ok.injEq] at h
          subst h
          refine ⟨fun k x hx => hx, ?_, ?_⟩
          · simp [entryDirCount, hsd, hmd, hed, hf0]
          · intro sd2 hsd2 md2 hmd2 ed2 hed2 hforce
            obtain rfl := Option.some.inj hmd2
            rw [hed] at hed2
            obtain rfl := Option.some.inj hed2
            rw [hf0] at hforce
            exact Bool.noConfusion hforce

/-- The SAE walk of the extractor: starting from any buckets, the own
bucket gains at least one repeal per in-force positioned directive,
and every such directive reaches both buckets. -/
theorem walkFold_props {Ref : Type} [RefApi Ref] (at_date : Date) (aid : String) :
    ∀ (entries : List (Ref × SaeNode Ref)) (b b2 : AmendmentBuckets Ref),
      entries.foldlM (saeWalkerStep at_date aid) b = Except.ok b2 →
      (∀ k x, x ∈ b k → x ∈ b2 k)
      ∧ countRepeals (b aid) + (entries.map (entryDirCount at_date)).sum
          ≤ countRepeals (b2 aid)
      ∧ ∀ e ∈ entries, ∀ sd, e.2.data.semantic_data = some sd →
          ∀ md, e.2.data.metadata = some md →
          ∀ ed, md.enforcement_date = some ed →
          ed.is_in_force_at_date at_date = true →
          ∀ el ∈ sd, ∀ pos target, nonEdPosition el = some pos →
            anyRefAct pos = some target →
            (e.2, el) ∈ b2 target
            ∧ (e.2, SemanticData.repeal (AnyRef.ref e.1) none) ∈ b2 aid := by
  intro entries
  induction entries with
  | nil =>
    intro b b2 h
    simp only [List.foldlM_nil] at h
    simp only [pure, Except.pure, Except.ok.injEq] at h
    subst h
    exact ⟨fun k x hx => hx, by simp, fun e he => absurd he (List.not_mem_nil e)⟩
  | cons e entries ih =>
    intro b b2 h
    rw [List.foldlM_cons] at h
    obtain ⟨b1, h1, h2⟩ := except_bind_ok _ _ _ h
    obtain ⟨mono0, count0, mem0⟩ := saeWalkerStep_props at_date aid b e b1 h1
    obtain ⟨mono1, count1, mem1⟩ := ih b1 b2 h2
    refine ⟨fun k x hx => mono1 k x (mono0 k x hx), ?_, ?_⟩
    · simp only [List.map_cons, List.sum_cons]
      omega
    · intro e2 he2 sd hsd md hmd ed hed hforce el hel pos target hpos ht
      rcases List.mem_cons.mp he2 with rfl | he2
      · obtain ⟨hm1, hm2⟩ := mem0 sd hsd md hmd ed hed hforce el hel pos target hpos ht
        exact ⟨mono1 target _ hm1, mono1 aid _ hm2⟩
      · exact mem1 e2 he2 sd hsd md hmd ed hed hforce el hel pos target hpos ht

/-- C8: for every amending act and date, a successful
`get_amendments_and_repeals` run delivers, for each
non-`EnforcementDate` directive carried by an SAE in force at the
date, both the `(source SAE, directive)` pair into the bucket of the
directive's target act and a synthetic `Repeal` of the SAE's own
reference into the bucket of the amending act itself; in particular
that own bucket contains at least one repeal per such directive. -/
theorem claim8 {Ref : Type} [RefApi Ref] (act : ActWM Ref) (at_date : Date)
    (buckets : AmendmentBuckets Ref)
    (h : get_amendments_and_repeals act at_date = Except.ok buckets) :
    countInForceDirectives act at_date ≤ countRepeals (buckets act.identifier)
    ∧ ∀ e ∈ walkAct act, ∀ sd, e.2.data.semantic_data = some sd →
        ∀ md, e.2.data.metadata = some md →
        ∀ ed, md.enforcement_date = some ed →
        ed.is_in_force_at_date at_date = true →
        ∀ el ∈ sd, ∀ pos target, nonEdPosition el = some pos →
          anyRefAct pos = some target →
          (e.2, el) ∈ buckets target
          ∧ (e.2, SemanticData.repeal (AnyRef.ref e.1) none)
              ∈ buckets act.identifier := by
  unfold get_amendments_and_repeals at h
  obtain ⟨_mono, hcount, hmem⟩ :=
    walkFold_props at_date act.identifier (walkAct act) (fun _ => []) buckets h
  refine ⟨?_, hmem⟩
  simpa [countInForceDirectives, countRepeals] using hcount

/-- C8 (witness): on the one-directive witness act the own bucket
holds the synthetic self-repeal and at least one repeal per
directive. -/
theorem claim8_witness :
    countInForceDirectives exAct8 ⟨2021, 1, 1⟩ ≤ countRepeals (exBuckets8 exAct8.identifier)
    ∧ countInForceDirectives exAct8 ⟨2021, 1, 1⟩ = 1
    ∧ (SaeNode.paragraph exPara8, SemanticData.repeal (AnyRef.ref exSelf8) none)
        ∈ exBuckets8 exAct8.identifier := by
  have h8 := claim8 exAct8 ⟨2021, 1, 1⟩ exBuckets8 rfl
  refine ⟨h8.1, rfl, ?_⟩
  have hm := h8.2 (exSelf8, SaeNode.paragraph exPara8)
    (by rw [show walkAct exAct8 = [(exSelf8, SaeNode.paragraph exPara8)] from rfl]
        exact List.mem_cons_self _ _)
    exSd8 rfl exMd8 rfl exCed8 rfl (by decide)
    (SemanticData.repeal (AnyRef.ref exTgt8) none) (List.mem_cons_self _ _)
    (AnyRef.ref exTgt8) "TGT" rfl rfl
  exact hm.2

/-! ## C7: block insertion of a new article between two existing ones -/

/-- Pointwise-successful `mapM` over `Except` is the pure map. -/
theorem mapM_ok_spec {γ δ : Type} (g : γ → Except String δ) (spec : γ → δ)
    (l : List γ) (h : ∀ x ∈ l, g x = Except.ok (spec x)) :
    l.mapM g = Except.ok (l.map spec) := by
  induction l with
  | nil => rfl
  | cons x t ih =>
    rw [List.mapM_cons, h x (List.mem_cons_self x t),
      ih (fun y hy => h y (List.mem_cons_of_mem x hy))]
    rfl

/-- Stamping bare shared fields succeeds with the fresh metadata. -/
theorem stampData_bare {Ref : Type} (d : Date) (sd : SaeData Ref)
    (h : sd.metadata = none) : stampData d sd = Except.ok (stampDataSpec d sd) := by
  unfold stampData
  rw [h]
  rfl

/-- Stamping a bare subpoint is its pure spec. -/
theorem stampSubpoint_bare {Ref : Type} (d : Date) (sp : Subpoint Ref)
    (h : bareSubpoint sp = true) :
    stampSubpoint d sp = Except.ok (stampSubpointSpec d sp) := by
  have hmd : sp.data.metadata = none := by
    simpa [bareSubpoint, Option.isNone_iff_eq_none] using h
  unfold stampSubpoint
  rw [stampData_bare d sp.data hmd]
  rfl

/-- Stamping a bare point subtree is its pure spec. -/
theorem stampPoint_bare {Ref : Type} (d : Date) (pt : Point Ref)
    (h : barePoint pt = true) : stampPoint d pt = Except.ok (stampPointSpec d pt) := by
  have h2 := h
  simp only [barePoint, Bool.and_eq_true, Option.isNone_iff_eq_none,
    List.all_eq_true] at h2
  obtain ⟨hmd, hall⟩ := h2
  unfold stampPoint
  simp only [stampPointSpec]
  rw [stampData_bare d pt.data hmd]
  rcases hc : pt.children with _ | sps
  · rfl
  · dsimp only
    rw [hc] at hall
    simp only [Option.getD_some] at hall
    rw [mapM_ok_spec (stampSubpoint d) (stampSubpointSpec d) sps
      (fun sp hsp => stampSubpoint_bare d sp (hall sp hsp))]
    rfl

/-- Stamping a bare block-content paragraph subtree is its pure spec. -/
theorem stampBParagraph_bare {Ref : Type} (d : Date) (p : BParagraph Ref)
    (h : bareBParagraph p = true) :
    stampBParagraph d p = Except.ok (stampBParagraphSpec d p) := by
  have h2 := h
  simp only [bareBParagraph, Bool.and_eq_true, Option.isNone_iff_eq_none,
    List.all_eq_true] at h2
  obtain ⟨hmd, hall⟩ := h2
  unfold stampBParagraph
  simp only [stampBParagraphSpec]
  rw [stampData_bare d p.data hmd]
  rcases hc : p.children with _ | ps
  · rfl
  · dsimp only
    rw [hc] at hall
    simp only [Option.getD_some] at hall
    rw [mapM_ok_spec (stampPoint d) (stampPointSpec d) ps
      (fun pt hpt => stampPoint_bare d pt (hall pt hpt))]
    rfl

/-- Evolving the fully stamped article into `ArticleWM` succeeds. -/
theorem toArticleWM_stamped {Ref : Type} (d : Date) (a : BArticle Ref) :
    toArticleWM { a with children := a.children.map (stampBParagraphSpec d) }
      = Except.ok (stampBArticleSpec d a) := by
  have hall : ((a.children.map (stampBParagraphSpec d)).map bparagraphToParagraph).all
      (fun p => p.data.metadata.isSome) = true := by
    rw [List.all_eq_true]
    intro p hp
    rw [List.mem_map] at hp
    obtain ⟨q, hq, rfl⟩ := hp
    rw [List.mem_map] at hq
    obtain ⟨r, _, rfl⟩ := hq
    rfl
  unfold toArticleWM
  dsimp only
  rw [if_pos hall]
  rfl

/-- `_new_children_default` on a bare block-content article stamps it
and evolves it into an `ArticleWM`. -/
theorem stampBlockChild_article {Ref : Type} (d : Date) (a : BArticle Ref)
    (h : bareBArticle a = true) :
    stampBlockChild d (BlockChild.article a)
      = Except.ok (NewChild.article (stampBArticleSpec d a)) := by
  have hall : ∀ p ∈ a.children, bareBParagraph p = true := by
    simpa [bareBArticle, List.all_eq_true] using h
  unfold stampBlockChild
  dsimp only
  rw [mapM_ok_spec (stampBParagraph d) (stampBParagraphSpec d) a.children
    (fun p hp => stampBParagraph_bare d p (hall p hp))]
  show NewChild.article <$>
      toArticleWM { a with children := a.children.map (stampBParagraphSpec d) }
    = Except.ok (NewChild.article (stampBArticleSpec d a))
  rw [toArticleWM_stamped]
  rfl

/-- Every SAE data record of the stamped article carries exactly the
fresh metadata. -/
theorem stampBArticleSpec_metadata {Ref : Type} (d : Date) (a : BArticle Ref) :
    ∀ sd ∈ articleSaeDatas (stampBArticleSpec d a),
      sd.metadata = some (stampMetadata d) := by
  intro sd hsd
  unfold articleSaeDatas stampBArticleSpec at hsd
  rw [List.mem_flatMap] at hsd
  obtain ⟨p, hp, hsd⟩ := hsd
  rw [List.mem_map] at hp
  obtain ⟨q, hq, rfl⟩ := hp
  rw [List.mem_map] at hq
  obtain ⟨r, _, rfl⟩ := hq
  simp only [bparagraphToParagraph, stampBParagraphSpec] at hsd
  rcases hrc : r.children with _ | pts
  · rw [hrc] at hsd
    simp only [Option.map_none'] at hsd
    rcases List.mem_cons.mp hsd with rfl | h0
    · rfl
    · exact absurd h0 (by simp)
  · rw [hrc] at hsd
    simp only [Option.map_some'] at hsd
    rcases List.mem_cons.mp hsd with rfl | hsd
    · rfl
    · rw [List.mem_flatMap] at hsd
      obtain ⟨pt, hpt, hsd⟩ := hsd
      rw [List.mem_map] at hpt
      obtain ⟨pt0, _, rfl⟩ := hpt
      simp only [stampPointSpec] at hsd
      rcases List.mem_cons.mp hsd with rfl | hsd
      · rfl
      · rcases hpc : pt0.children with _ | sps
        · rw [hpc] at hsd
          simp at hsd
        · rw [hpc] at hsd
          simp only [Option.map_some', Option.getD_some] at hsd
          rw [List.mem_map] at hsd
          obtain ⟨sp, hsp, rfl⟩ := hsd
          rw [List.mem_map] at hsp
          obtain ⟨sp0, _, rfl⟩ := hsp
          rfl

/-- `first_matching_index` skips an all-false prefix. -/
theorem first_matching_index_append {α : Type} (p : α → Bool) (pre l : List α)
    (h : ∀ c ∈ pre, p c = false) :
    first_matching_index p (pre ++ l) = pre.length + first_matching_index p l := by
  induction pre with
  | nil => simp [first_matching_index]
  | cons c t ih =>
    simp only [List.cons_append, first_matching_index]
    rw [if_neg (by simp [h c (List.mem_cons_self c t)])]
    simp only [List.append_eq]
    rw [ih (fun x hx => h x (List.mem_cons_of_mem c hx))]
    simp only [List.length_cons]
    omega

/-- Indexing just past a prefix. -/
theorem get_elem_pre {α : Type} (pre l : List α) (x : α) :
    (pre ++ x :: l).get? pre.length = some x := by
  induction pre with
  | nil => rfl
  | cons c t ih =>
    simp only [List.cons_append, List.length_cons, List.get?_cons_succ]
    exact ih

/-- Taking just past a prefix. -/
theorem take_pre_succ {α : Type} (pre l : List α) (x : α) :
    (pre ++ x :: l).take (pre.length + 1) = pre ++ [x] := by
  induction pre with
  | nil => rfl
  | cons c t ih =>
    simp only [List.cons_append, List.length_cons, List.take_succ_cons]
    rw [ih]

/-- Dropping just past a prefix. -/
theorem drop_pre_succ {α : Type} (pre l : List α) (x : α) :
    (pre ++ x :: l).drop (pre.length + 1) = l := by
  induction pre with
  | nil => rfl
  | cons c t ih =>
    simp only [List.cons_append, List.length_cons, List.drop_succ_cons]
    exact ih

/-- The insertion walk-back stops immediately on a non-structural
predecessor. -/
theorem backOff_non_structural {α : Type} (p : α → Bool) (pre l : List α) (x : α)
    (hx : p x = false) :
    backOff p (pre ++ x :: l) (pre.length + 1) = pre.length + 1 := by
  unfold backOff
  rw [get_elem_pre]
  dsimp only
  rw [if_neg (by simp [hx])]

/-- Cut points of an insertion landing between two adjacent children:
both scans stop at the second one, and the walk-back stays put because
the first one is not a structural heading. -/
theorem cutPoints_insert_between {Ref α : Type} [RefApi Ref]
    (position parentRef : Ref) (relRef : α → Option Ref) (isStruct : α → Bool)
    (pre l : List α) (c5 c6 : α)
    (hpre : ∀ c ∈ pre,
      childStartPred parentRef (RefApi.firstInRange position) relRef c = false)
    (h5s : childStartPred parentRef (RefApi.firstInRange position) relRef c5 = false)
    (h6s : childStartPred parentRef (RefApi.firstInRange position) relRef c6 = true)
    (h6e : childEndPred parentRef (RefApi.lastInRange position) relRef c6 = true)
    (h5n : isStruct c5 = false) :
    get_cut_points_for_reference position parentRef relRef isStruct (pre ++ c5 :: c6 :: l)
      = (pre.length + 1, pre.length + 1) := by
  have hstart : first_matching_index
      (childStartPred parentRef (RefApi.firstInRange position) relRef)
      (pre ++ c5 :: c6 :: l) = pre.length + 1 := by
    rw [first_matching_index_append _ pre _ hpre]
    simp only [first_matching_index]
    rw [if_neg (by simp [h5s]), if_pos h6s]
  have hend : first_matching_index_from
      (childEndPred parentRef (RefApi.lastInRange position) relRef)
      (pre ++ c5 :: c6 :: l) (pre.length + 1) = pre.length + 1 := by
    unfold first_matching_index_from
    rw [drop_pre_succ]
    simp only [first_matching_index]
    rw [if_pos h6e]
  unfold get_cut_points_for_reference
  dsimp only
  rw [hstart, hend, if_pos rfl, backOff_non_structural isStruct pre (c6 :: l) c5 h5n]

/-- `compute_new_children` at act level for the insertion shape:
splice the new children between the two adjacent articles. -/
theorem computeNewChildrenAct_insert {Ref : Type} [RefApi Ref] (pos parentRef : Ref)
    (pi : Bool) (st : Article Ref) (pre post : List (ActChild Ref)) (a5 a6 : Article Ref)
    (hpre : ∀ c ∈ pre,
      childStartPred parentRef (RefApi.firstInRange pos) actChildRelRef c = false)
    (h5s : childStartPred parentRef (RefApi.firstInRange pos) actChildRelRef
      (ActChild.article a5) = false)
    (h6s : childStartPred parentRef (RefApi.firstInRange pos) actChildRelRef
      (ActChild.article a6) = true)
    (h6e : childEndPred parentRef (RefApi.lastInRange pos) actChildRelRef
      (ActChild.article a6) = true) :
    computeNewChildrenAct (AnyRef.ref pos) pi [NewChild.article st] parentRef
        (pre ++ ActChild.article a5 :: ActChild.article a6 :: post)
      = Except.ok (pre ++ ActChild.article a5 :: ActChild.article st
          :: ActChild.article a6 :: post) := by
  unfold computeNewChildrenAct
  dsimp only
  rw [cutPoints_insert_between pos parentRef actChildRelRef isStructActChild pre post
    (ActChild.article a5) (ActChild.article a6) hpre h5s h6s h6e rfl]
  simp only [pure, Except.pure, Bind.bind, Except.bind]
  rw [if_pos (Nat.le_refl (pre.length + 1))]
  rw [show ([NewChild.article st].mapM newChildToActChild
      : Except String (List (ActChild Ref))) = Except.ok [ActChild.article st] from rfl]
  rw [take_pre_succ pre (ActChild.article a6 :: post) (ActChild.article a5),
    drop_pre_succ pre (ActChild.article a6 :: post) (ActChild.article a5)]
  simp

/-- C7: a block amendment whose position is article-kinded and whose
content is one bare new article, applied to an act whose children hold
two adjacent articles with the range scans stopping at the second one,
builds the applier with the stamped new article and splices it between
the two; every SAE data record of the inserted article carries a fresh
enforcement interval starting at the current date. -/
theorem claim7 {Ref : Type} [RefApi Ref] [DecidableEq Ref] (act : ActWM Ref)
    (pos : Ref) (pure_insertion : Bool) (src_p : Paragraph Ref) (a5A : BArticle Ref)
    (d : Date) (pre post : List (ActChild Ref)) (a5 a6 : Article Ref)
    (hch : act.children = pre ++ ActChild.article a5 :: ActChild.article a6 :: post)
    (hkind : RefApi.kind pos = some RefKind.article)
    (hsrc : src_p.children
      = some (ParagraphChildren.blockAmendmentContainer [BlockChild.article a5A]))
    (hbare : bareBArticle a5A = true)
    (hpre : ∀ c ∈ pre, childStartPred (RefApi.mkActRef act.identifier)
      (RefApi.firstInRange pos) actChildRelRef c = false)
    (h5s : childStartPred (RefApi.mkActRef act.identifier) (RefApi.firstInRange pos)
      actChildRelRef (ActChild.article a5) = false)
    (h6s : childStartPred (RefApi.mkActRef act.identifier) (RefApi.firstInRange pos)
      actChildRelRef (ActChild.article a6) = true)
    (h6e : childEndPred (RefApi.mkActRef act.identifier) (RefApi.lastInRange pos)
      actChildRelRef (ActChild.article a6) = true) :
    mkBlockAmendmentApplier (SemanticData.blockAmendment (AnyRef.ref pos) pure_insertion)
        (SaeNode.paragraph src_p) d
      = Except.ok (Applier.blockAmendment
          (SemanticData.blockAmendment (AnyRef.ref pos) pure_insertion)
          (SaeNode.paragraph src_p) d [NewChild.article (stampBArticleSpec d a5A)]
          (AnyRef.ref pos) pure_insertion)
    ∧ (Applier.blockAmendment (SemanticData.blockAmendment (AnyRef.ref pos) pure_insertion)
          (SaeNode.paragraph src_p) d [NewChild.article (stampBArticleSpec d a5A)]
          (AnyRef.ref pos) pure_insertion).apply act
      = Except.ok ({ act with children := pre ++ ActChild.article a5 :: ActChild.article (stampBArticleSpec d a5A) :: ActChild.article a6 :: post }, true)
    ∧ ∀ sd ∈ articleSaeDatas (stampBArticleSpec d a5A),
        ∃ ced, sd.metadata = some { enforcement_date := some ced, last_modified := none }
          ∧ ced.from_date = d := by
  refine ⟨?_, ?_, ?_⟩
  · unfold mkBlockAmendmentApplier
    dsimp only
    rw [hsrc]
    dsimp only
    rw [show ([BlockChild.article a5A].mapM (stampBlockChild d)
        : Except String (List (NewChild Ref)))
        = Except.ok [NewChild.article (stampBArticleSpec d a5A)] from by
      rw [List.mapM_cons, stampBlockChild_article d a5A hbare, List.mapM_nil]; rfl]
    rfl
  · show blockApply (AnyRef.ref pos) pure_insertion
        [NewChild.article (stampBArticleSpec d a5A)] act = _
    unfold blockApply
    dsimp only
    rw [hkind]
    dsimp only
    unfold blockApplyToAct
    rw [hch]
    rw [computeNewChildrenAct_insert pos (RefApi.mkActRef act.identifier) pure_insertion
      (stampBArticleSpec d a5A) pre post a5 a6 hpre h5s h6s h6e]
    rfl
  · intro sd hsd
    refine ⟨{ from_date := d, to_date := none }, ?_, rfl⟩
    rw [stampBArticleSpec_metadata d a5A sd hsd]
    rfl

/-- C7 (witness): inserting article 5/A between articles 5 and 6
yields [5, 5/A, 6] with the new SAE stamped at the current date. -/
theorem claim7_witness :
    (Applier.blockAmendment (SemanticData.blockAmendment (AnyRef.ref exPos7) true)
        (SaeNode.paragraph exSrc7) ⟨2021, 3, 4⟩
        [NewChild.article (stampBArticleSpec ⟨2021, 3, 4⟩ exA5A7)]
        (AnyRef.ref exPos7) true).apply exAct7
      = Except.ok ({ exAct7 with children := [ActChild.article exArt5, ActChild.article (stampBArticleSpec ⟨2021, 3, 4⟩ exA5A7), ActChild.article exArt6] }, true)
    ∧ ∀ sd ∈ articleSaeDatas (stampBArticleSpec ⟨2021, 3, 4⟩ exA5A7),
        ∃ ced, sd.metadata = some { enforcement_date := some ced, last_modified := none }
          ∧ ced.from_date = ⟨2021, 3, 4⟩ := by
  have h7 := claim7 exAct7 exPos7 true exSrc7 exA5A7 ⟨2021, 3, 4⟩ [] [] exArt5 exArt6
    rfl rfl rfl rfl (fun c hc => absurd hc (List.not_mem_nil c))
    rfl rfl rfl
  exact ⟨h7.2.1, h7.2.2⟩

end Ajdb
